import Mathlib

/-!
# AmplitudeModulation_HandTracking: gesture gate, target computation, emission

A shallow embedding of the polling loop of
`src/AmplitudeModulation_HandTracking.cpp`.

* The two `bool` flags and two `int` counters that survive between iterations
  are the record `GestureState`.  The counters are unbounded integers here; on
  every run that starts from the initial state they stay far inside the range
  of a C++ `int`.
* One pass of the `while (true)` body is `iteration`: it takes the gesture
  state and the frame's hand list and returns the new gesture state together
  with the emitter calls made, in program order.
* `float` values are elements of an ordered field `α` (every finite `float` is
  a rational number); rounding is not modelled.  The geometry claims are read
  at `α = ℝ` with `Real.sqrt`.
* The Leap and Ultrahaptics headers are not part of the repository.  The unit
  constants, the square root and the two alignment maps are the fields of
  `Sdk`; the vector operations are written out under `Vector3`.
* `specGate` is the gesture gate as the specification words it (all per-hand
  updates first, each side released independently afterwards); it is compared
  with the state computed by `iteration`.
-/

namespace HandTracking

/-! ## Vectors -/

/-- Modelled from the spec: the three-component vector type shared by
`Leap::Vector` and `Ultrahaptics::Vector3` (both headers are missing). -/
@[ext]
structure Vector3 (α : Type) where
  x : α
  y : α
  z : α
deriving DecidableEq

namespace Vector3

variable {α : Type} [LinearOrderedField α]

/-- Modelled from the spec: `operator+` of `Ultrahaptics::Vector3`, the
componentwise sum (header missing). -/
def add (a b : Vector3 α) : Vector3 α :=
  ⟨a.x + b.x, a.y + b.y, a.z + b.z⟩

/-- Modelled from the spec: binary `operator-` of `Ultrahaptics::Vector3`, the
componentwise difference (header missing); used to state the offset of the
control point from the palm. -/
def sub (a b : Vector3 α) : Vector3 α :=
  ⟨a.x - b.x, a.y - b.y, a.z - b.z⟩

/-- Modelled from the spec: unary `operator-` of `Ultrahaptics::Vector3`
(header missing); the spec says the normal is negated. -/
def neg (a : Vector3 α) : Vector3 α :=
  ⟨-a.x, -a.y, -a.z⟩

/-- Modelled from the spec: `float * Vector3`, the scalar multiple (header
missing). -/
def scale (k : α) (a : Vector3 α) : Vector3 α :=
  ⟨k * a.x, k * a.y, k * a.z⟩

/-- Modelled from the spec: `Vector3::cross`, the right-handed cross product
`a × b` (header missing). -/
def cross (a b : Vector3 α) : Vector3 α :=
  ⟨a.y * b.z - a.z * b.y, a.z * b.x - a.x * b.z, a.x * b.y - a.y * b.x⟩

/-- Dot product, used to state orthogonality and unit length. -/
def dot (a b : Vector3 α) : α :=
  a.x * b.x + a.y * b.y + a.z * b.z

/-- Euclidean length with the square root supplied by the SDK. -/
def length (sqrt : α → α) (a : Vector3 α) : α :=
  sqrt (dot a a)

/-- Modelled from the spec: `Vector3::normalize`, the vector divided by its
Euclidean length (header missing). -/
def normalize (sqrt : α → α) (a : Vector3 α) : Vector3 α :=
  ⟨a.x / length sqrt a, a.y / length sqrt a, a.z / length sqrt a⟩

/-- The zero vector. -/
def zero : Vector3 α :=
  ⟨0, 0, 0⟩

/-- Two vectors are parallel when one is a scalar multiple of the other. -/
def parallel (a b : Vector3 α) : Prop :=
  ∃ k : α, a = scale k b ∨ b = scale k a

end Vector3

/-! ## Data model -/

/-- The part of a `Leap::Hand` the loop reads. -/
structure Hand (α : Type) where
  isLeft : Bool
  isRight : Bool
  palmPosition : Vector3 α
  palmNormal : Vector3 α
  palmVelocity : Vector3 α
  direction : Vector3 α
deriving DecidableEq

/-- What the loop takes as given from the SDK, whose headers are missing: the
unit constants `Ultrahaptics::Units::hertz` and `Ultrahaptics::Units::cm`, the
square root behind `normalize`, and the two maps of `Ultrahaptics::Alignment`.
They are parameters of every definition below. -/
structure Sdk (α : Type) where
  hertz : α
  cm : α
  sqrt : α → α
  fromTrackingPositionToDevicePosition : Vector3 α → Vector3 α
  fromTrackingDirectionToDeviceDirection : Vector3 α → Vector3 α

/-- The value handed to `emitter.update`. -/
structure ControlPoint (α : Type) where
  position : Vector3 α
  intensity : α
  frequency : α
deriving DecidableEq

/-- One call on the emitter. -/
inductive EmitterCall (α : Type) where
  | stop : EmitterCall α
  | update (point : ControlPoint α) : EmitterCall α
deriving DecidableEq

/-- The variables declared on lines 22-23, which live across iterations. -/
structure GestureState where
  left_pressed : Bool
  right_pressed : Bool
  left_count : Int
  right_count : Int
deriving DecidableEq

/-- Line 24. -/
def pressed_released_count : Int := 40

/-- Lines 22-23: both flags false, both counters zero. -/
def initialState : GestureState :=
  ⟨false, false, 0, 0⟩

section Loop

variable {α : Type} [LinearOrderedField α]

/-! ## Target computation (lines 52-72) -/

/-- Line 57 (with line 52): the palm position as an Ultrahaptics vector. -/
def uh_palm_position (hand : Hand α) : Vector3 α :=
  hand.palmPosition

/-- Line 58 (with line 53): the palm normal, negated. -/
def uh_palm_normal (hand : Hand α) : Vector3 α :=
  Vector3.neg hand.palmNormal

/-- Line 59 (with line 54): the hand direction. -/
def uh_palm_direction (hand : Hand α) : Vector3 α :=
  hand.direction

/-- Line 62. -/
def device_palm_position (sdk : Sdk α) (hand : Hand α) : Vector3 α :=
  sdk.fromTrackingPositionToDevicePosition (uh_palm_position hand)

/-- Line 63: negated palm normal, mapped to device space, normalised. -/
def device_palm_normal (sdk : Sdk α) (hand : Hand α) : Vector3 α :=
  Vector3.normalize sdk.sqrt
    (sdk.fromTrackingDirectionToDeviceDirection (uh_palm_normal hand))

/-- Line 64: hand direction, mapped to device space, normalised. -/
def device_palm_direction (sdk : Sdk α) (hand : Hand α) : Vector3 α :=
  Vector3.normalize sdk.sqrt
    (sdk.fromTrackingDirectionToDeviceDirection (uh_palm_direction hand))

/-- Line 67. -/
def device_palm_z (sdk : Sdk α) (hand : Hand α) : Vector3 α :=
  device_palm_normal sdk hand

/-- Line 68. -/
def device_palm_y (sdk : Sdk α) (hand : Hand α) : Vector3 α :=
  device_palm_direction sdk hand

/-- Line 69. -/
def device_palm_x (sdk : Sdk α) (hand : Hand α) : Vector3 α :=
  Vector3.normalize sdk.sqrt
    (Vector3.cross (device_palm_y sdk hand) (device_palm_z sdk hand))

/-- Line 72. -/
def position (sdk : Sdk α) (hand : Hand α) : Vector3 α :=
  Vector3.add
    (Vector3.add (device_palm_position sdk hand)
      (Vector3.scale (2 * sdk.cm) (device_palm_x sdk hand)))
    (Vector3.scale (2 * sdk.cm) (device_palm_y sdk hand))

/-! ## Emission constants (lines 20-21, 75) -/

/-- Line 20. -/
def frequency (sdk : Sdk α) : α :=
  200 * sdk.hertz

/-- Line 21. -/
def intensity : α :=
  3 / 2

/-- Line 75: the control point built for a hand. -/
def point (sdk : Sdk α) (hand : Hand α) : ControlPoint α :=
  ⟨position sdk hand, intensity, frequency sdk * sdk.hertz⟩

/-! ## Gesture gate (lines 35-49, 80-83) -/

/-- Line 35: the condition guarding the body for one hand. -/
def isCandidate (st : GestureState) (hand : Hand α) : Bool :=
  decide (hand.palmVelocity.z < -90) || (st.left_pressed && hand.isLeft)
    || (st.right_pressed && hand.isRight)

/-- Lines 38-49: the `if / else if` chain over the four cases. -/
def pressChain (st : GestureState) (hand : Hand α) : GestureState :=
  if !st.left_pressed && hand.isLeft then
    { st with left_pressed := true, left_count := 0 }
  else if st.left_pressed && hand.isLeft then
    { st with left_count := st.left_count + 1 }
  else if !st.right_pressed && hand.isRight then
    { st with right_pressed := true, right_count := 0 }
  else if st.right_pressed && hand.isRight then
    { st with right_count := st.right_count + 1 }
  else st

/-- Lines 80-83: the release check, right in the `else` branch of left. -/
def releaseCheck (st : GestureState) : GestureState :=
  if st.left_pressed && decide (st.left_count = pressed_released_count) then
    { st with left_pressed := false }
  else if st.right_pressed && decide (st.right_count = pressed_released_count) then
    { st with right_pressed := false }
  else st

/-- Lines 84-85: `stop` when both flags are false. -/
def stopCheck (st : GestureState) : List (EmitterCall α) :=
  if !st.left_pressed && !st.right_pressed then [EmitterCall.stop] else []

/-- Lines 35-79: the guarded body, giving the state and the `update` call. -/
def candidateBody (sdk : Sdk α) (st : GestureState) (hand : Hand α) :
    GestureState × List (EmitterCall α) :=
  if isCandidate st hand then
    (pressChain st hand, [EmitterCall.update (point sdk hand)])
  else (st, [])

/-- Lines 35-85: the body of the `for` loop for one hand. -/
def handStep (sdk : Sdk α) (st : GestureState) (hand : Hand α) :
    GestureState × List (EmitterCall α) :=
  let st2 := releaseCheck (candidateBody sdk st hand).1
  (st2, (candidateBody sdk st hand).2 ++ stopCheck st2)

/-- Lines 34-86: the `for` loop over the hands of the frame. -/
def forHands (sdk : Sdk α) (st : GestureState) :
    List (Hand α) → GestureState × List (EmitterCall α)
  | [] => (st, [])
  | hand :: rest =>
    ((forHands sdk (handStep sdk st hand).1 rest).1,
      (handStep sdk st hand).2 ++ (forHands sdk (handStep sdk st hand).1 rest).2)

/-- Lines 28-87: one pass of the `while (true)` body on a frame's hands. -/
def iteration (sdk : Sdk α) (st : GestureState) (hands : List (Hand α)) :
    GestureState × List (EmitterCall α) :=
  if hands.isEmpty then (st, [EmitterCall.stop]) else forHands sdk st hands

/-- Lines 26-90 on a finite sequence of frames: the final state and the
emitter calls of each iteration. -/
def runLoop (sdk : Sdk α) (st : GestureState) :
    List (List (Hand α)) → GestureState × List (List (EmitterCall α))
  | [] => (st, [])
  | hands :: frames =>
    ((runLoop sdk (iteration sdk st hands).1 frames).1,
      (iteration sdk st hands).2 :: (runLoop sdk (iteration sdk st hands).1 frames).2)

end Loop

/-! ## Concrete data for closed statements -/

/-- An SDK instance over the rationals: units `hertz = 1`, `cm = 1/100`,
identity alignment.  The square-root slot holds the identity map, which is the
exact square root on the values it meets for the hands below (0 and 1: their
normals, directions and cross products are unit vectors). -/
def unitSdk : Sdk ℚ :=
  ⟨1, 1 / 100, fun q => q, fun v => v, fun v => v⟩

/-- A left hand pushing down at 100 units per second. -/
def leftPush : Hand ℚ :=
  ⟨true, false, ⟨0, 0, 0⟩, ⟨0, 0, -1⟩, ⟨0, 0, -100⟩, ⟨0, 1, 0⟩⟩

/-- A right hand at rest. -/
def rightStill : Hand ℚ :=
  ⟨false, true, ⟨0, 0, 0⟩, ⟨0, 0, -1⟩, ⟨0, 0, 0⟩, ⟨0, 1, 0⟩⟩

/-- An SDK instance over any ordered field with the given square root: units
`hertz = 1`, `cm = 1/100`, identity alignment. -/
def idealSdk {α : Type} [LinearOrderedField α] (sqrt : α → α) : Sdk α :=
  ⟨1, 1 / 100, sqrt, fun v => v, fun v => v⟩

/-- A left hand at the origin, palm normal pointing down the z axis, direction
along the y axis, pushing down at 100 units per second. -/
def flatHand {α : Type} [LinearOrderedField α] : Hand α :=
  ⟨true, false, ⟨0, 0, 0⟩, ⟨0, 0, -1⟩, ⟨0, 0, -100⟩, ⟨0, 1, 0⟩⟩

/-- As `flatHand`, but with the direction `(0, 3, 4)`, which is not orthogonal
to the palm normal. -/
def tiltedHand {α : Type} [LinearOrderedField α] : Hand α :=
  ⟨true, false, ⟨0, 0, 0⟩, ⟨0, 0, -1⟩, ⟨0, 0, -100⟩, ⟨0, 3, 4⟩⟩

/-! ## Vocabulary for the statements -/

/-- The two sides a hand can be on. -/
inductive Side where
  | left : Side
  | right : Side
deriving DecidableEq

/-- The `pressed` flag of a side. -/
def GestureState.pressed (st : GestureState) : Side → Bool
  | Side.left => st.left_pressed
  | Side.right => st.right_pressed

/-- The hold counter of a side. -/
def GestureState.holdCount (st : GestureState) : Side → Int
  | Side.left => st.left_count
  | Side.right => st.right_count

/-- The hand reports the given side (`isLeft()` or `isRight()`). -/
def Hand.onSide {α : Type} (hand : Hand α) : Side → Bool
  | Side.left => hand.isLeft
  | Side.right => hand.isRight

/-- The hand is exactly one of left/right, namely the given side. -/
def Hand.isOnly {α : Type} (hand : Hand α) : Side → Bool
  | Side.left => hand.isLeft && !hand.isRight
  | Side.right => hand.isRight && !hand.isLeft

/-- At most one hand of the frame reports left and at most one reports right. -/
def atMostOnePerSide {α : Type} (hands : List (Hand α)) : Prop :=
  hands.countP (fun h => h.isLeft) ≤ 1 ∧ hands.countP (fun h => h.isRight) ≤ 1

/-- The control points of the `update` calls of a call sequence, in order. -/
def updatesOf {α : Type} : List (EmitterCall α) → List (ControlPoint α)
  | [] => []
  | EmitterCall.stop :: rest => updatesOf rest
  | EmitterCall.update p :: rest => p :: updatesOf rest

/-- A frame with at most one hand per side in which some hand is exactly on
side `s`. -/
def heldFrame {α : Type} (s : Side) (hands : List (Hand α)) : Prop :=
  atMostOnePerSide hands
    ∧ ∃ pre hand post, hands = pre ++ hand :: post ∧ hand.isOnly s = true

/-- The left side is pressed with its counter standing exactly at 40. -/
def leftDue (st : GestureState) : Prop :=
  st.left_pressed = true ∧ st.left_count = 40

/-- A qualifying hand in the words of the specification: palm velocity z below
-90, or the hand belongs to a side whose pressed flag is true. -/
def qualifies {α : Type} [LinearOrderedField α] (st : GestureState) (hand : Hand α) :
    Bool :=
  decide (hand.palmVelocity.z < -90)
    || (hand.onSide Side.left && st.pressed Side.left)
    || (hand.onSide Side.right && st.pressed Side.right)

/-- The hands of a frame that qualify at the moment they are processed, in
hand order: each hand is tested against the state left by the hands before
it. -/
def candidateHands {α : Type} [LinearOrderedField α] (sdk : Sdk α) (st : GestureState) :
    List (Hand α) → List (Hand α)
  | [] => []
  | hand :: rest =>
    if qualifies st hand then hand :: candidateHands sdk (handStep sdk st hand).1 rest
    else candidateHands sdk (handStep sdk st hand).1 rest

/-- The counters lie in 0..40 and a pressed side has its counter below 40. -/
def CounterInv (st : GestureState) : Prop :=
  (0 ≤ st.left_count ∧ st.left_count ≤ 40)
    ∧ (0 ≤ st.right_count ∧ st.right_count ≤ 40)
    ∧ (st.left_pressed = true → st.left_count < 40)
    ∧ (st.right_pressed = true → st.right_count < 40)

/-- The gesture state can be the state at an iteration boundary of a run that
starts from the initial state. -/
def Reachable {α : Type} [LinearOrderedField α] (sdk : Sdk α) (st : GestureState) : Prop :=
  ∃ frames : List (List (Hand α)), (runLoop sdk initialState frames).1 = st

/-- A right hand pushing down at 100 units per second. -/
def rightPush : Hand ℚ :=
  ⟨false, true, ⟨0, 0, 0⟩, ⟨0, 0, -1⟩, ⟨0, 0, -100⟩, ⟨0, 1, 0⟩⟩

/-- A left hand at rest. -/
def leftStill : Hand ℚ :=
  ⟨true, false, ⟨0, 0, 0⟩, ⟨0, 0, -1⟩, ⟨0, 0, 0⟩, ⟨0, 1, 0⟩⟩

/-- The gesture states at the end of each iteration of a run, in order. -/
def statesAfter {α : Type} [LinearOrderedField α] (sdk : Sdk α) (st : GestureState) :
    List (List (Hand α)) → List GestureState
  | [] => []
  | hands :: frames =>
    (iteration sdk st hands).1 :: statesAfter sdk (iteration sdk st hands).1 frames

/-- Number of false-to-true steps between neighbours of a list of flags. -/
def risingEdges : List Bool → Nat
  | a :: b :: rest => (if !a && b then 1 else 0) + risingEdges (b :: rest)
  | _ => 0

/-- Number of true-to-false steps between neighbours of a list of flags. -/
def fallingEdges : List Bool → Nat
  | a :: b :: rest => (if a && !b then 1 else 0) + fallingEdges (b :: rest)
  | _ => 0

/-- The state in which only side `s` is pressed, with counter `k`, and the
other side is as in the initial state. -/
def heldState (s : Side) (k : Int) : GestureState :=
  match s with
  | Side.left => ⟨true, false, k, 0⟩
  | Side.right => ⟨false, true, 0, k⟩

/-- The state right after side `s` was released at counter 40, the other side
as in the initial state. -/
def releasedState (s : Side) : GestureState :=
  match s with
  | Side.left => ⟨false, false, 40, 0⟩
  | Side.right => ⟨false, false, 0, 40⟩

/-! ## The gesture gate in the words of the specification -/

/-- The hand is exactly one of left/right. -/
def Hand.oneSided {α : Type} (hand : Hand α) : Bool :=
  xor hand.isLeft hand.isRight

/-- The specification's update of one side for a candidate hand of that side:
a side that was not pressed becomes pressed with counter 0, a side that was
already pressed has its counter incremented. -/
def pressOrIncrement (st : GestureState) : Side → GestureState
  | Side.left =>
    if st.left_pressed then { st with left_count := st.left_count + 1 }
    else { st with left_pressed := true, left_count := 0 }
  | Side.right =>
    if st.right_pressed then { st with right_count := st.right_count + 1 }
    else { st with right_pressed := true, right_count := 0 }

/-- Both sides evaluated independently for one hand: the left side is updated
if the hand reports left, and then the right side is updated if the hand
reports right, whatever happened on the left. -/
def independentChain {α : Type} (st : GestureState) (hand : Hand α) : GestureState :=
  (fun st1 => if hand.isRight then pressOrIncrement st1 Side.right else st1)
    (if hand.isLeft then pressOrIncrement st Side.left else st)

/-- The specification's per-hand update with both sides evaluated
independently: a qualifying hand updates every side it reports; no release is
done here. -/
def specHandUpdate {α : Type} [LinearOrderedField α] (st : GestureState) (hand : Hand α) :
    GestureState :=
  if qualifies st hand then independentChain st hand else st

/-- The specification's release: for each side independently, a pressed side
whose counter equals 40 becomes unpressed. -/
def independentRelease (st : GestureState) : GestureState :=
  { st with
    left_pressed :=
      if st.left_pressed && decide (st.left_count = 40) then false else st.left_pressed
    right_pressed :=
      if st.right_pressed && decide (st.right_count = 40) then false
      else st.right_pressed }

/-- The gesture gate as the specification words it: the per-hand updates for
all hands of the frame first, then the release of each side independently. -/
def specGate {α : Type} [LinearOrderedField α] (st : GestureState)
    (hands : List (Hand α)) : GestureState :=
  independentRelease (hands.foldl specHandUpdate st)

/-! ## Basic facts about one hand step -/

theorem updatesOf_append {α : Type} (xs ys : List (EmitterCall α)) :
    updatesOf (xs ++ ys) = updatesOf xs ++ updatesOf ys := by
  induction xs with
  | nil => rfl
  | cons c rest ih =>
    cases c with
    | stop => simpa [updatesOf] using ih
    | update p => simp [updatesOf, ih]

theorem updatesOf_stopCheck {α : Type} (st : GestureState) :
    updatesOf (stopCheck st : List (EmitterCall α)) = [] := by
  unfold stopCheck
  split <;> rfl

/-- The press chain touches only a side the hand reports. -/
theorem pressChain_other_side {α : Type} (st : GestureState) (hand : Hand α) (s : Side)
    (hs : hand.onSide s = false) :
    (pressChain st hand).pressed s = st.pressed s
      ∧ (pressChain st hand).holdCount s = st.holdCount s := by
  cases s <;> simp only [Hand.onSide] at hs <;>
    simp only [pressChain, hs, GestureState.pressed, GestureState.holdCount] <;>
    split_ifs <;> simp_all

/-- In a frame with at most one hand per side, the hands around a hand that
reports side `s` do not report `s`. -/
theorem others_off_side {α : Type} (s : Side) (pre post : List (Hand α)) (hand : Hand α)
    (hside : hand.onSide s = true) (hone : atMostOnePerSide (pre ++ hand :: post)) :
    (∀ h ∈ pre, h.onSide s = false) ∧ (∀ h ∈ post, h.onSide s = false) := by
  have key : ∀ (f : Hand α → Bool), f hand = true →
      (pre ++ hand :: post).countP f ≤ 1 →
      (∀ h ∈ pre, f h = false) ∧ (∀ h ∈ post, f h = false) := by
    intro f hf hle
    rw [List.countP_append, List.countP_cons_of_pos _ _ hf] at hle
    have h1 : pre.countP f = 0 := by omega
    have h2 : post.countP f = 0 := by omega
    rw [List.countP_eq_zero] at h1 h2
    exact ⟨fun h hh => by simpa using h1 h hh, fun h hh => by simpa using h2 h hh⟩
  cases s with
  | left => exact key (fun h => h.isLeft) hside hone.1
  | right => exact key (fun h => h.isRight) hside hone.2

theorem isOnly_onSide {α : Type} (hand : Hand α) (s : Side) (h : hand.isOnly s = true) :
    hand.onSide s = true := by
  cases s <;> simp only [Hand.isOnly, Bool.and_eq_true] at h <;> exact h.1

section Facts

variable {α : Type} [LinearOrderedField α]

theorem iteration_of_ne_nil (sdk : Sdk α) (st : GestureState) (hands : List (Hand α))
    (hne : hands ≠ []) : iteration sdk st hands = forHands sdk st hands := by
  cases hands with
  | nil => exact absurd rfl hne
  | cons h t => rfl

theorem forHands_append (sdk : Sdk α) (st : GestureState) (xs ys : List (Hand α)) :
    forHands sdk st (xs ++ ys) =
      ((forHands sdk (forHands sdk st xs).1 ys).1,
        (forHands sdk st xs).2 ++ (forHands sdk (forHands sdk st xs).1 ys).2) := by
  induction xs generalizing st with
  | nil => simp [forHands]
  | cons h t ih => simp [forHands, ih, List.append_assoc]

/-- The guarded body touches only a side the hand reports. -/
theorem candidateBody_other_side (sdk : Sdk α) (st : GestureState) (hand : Hand α)
    (s : Side) (hs : hand.onSide s = false) :
    (candidateBody sdk st hand).1.pressed s = st.pressed s
      ∧ (candidateBody sdk st hand).1.holdCount s = st.holdCount s := by
  unfold candidateBody
  split
  · exact pressChain_other_side st hand s hs
  · exact ⟨rfl, rfl⟩

/-- The release check never changes a counter, never presses a side, and
keeps a pressed side pressed unless its counter stands at 40. -/
theorem releaseCheck_side (st : GestureState) (s : Side) :
    (releaseCheck st).holdCount s = st.holdCount s
      ∧ ((releaseCheck st).pressed s = true → st.pressed s = true)
      ∧ (st.pressed s = true → st.holdCount s ≠ 40 →
          (releaseCheck st).pressed s = true) := by
  cases s <;>
    simp only [releaseCheck, GestureState.pressed, GestureState.holdCount,
      pressed_released_count] <;>
    split_ifs <;> simp_all

/-- A hand that does not report side `s` leaves the counter of `s` alone, never
presses `s`, and releases `s` only when its counter stands at 40. -/
theorem handStep_other_side (sdk : Sdk α) (st : GestureState) (hand : Hand α) (s : Side)
    (hs : hand.onSide s = false) :
    (handStep sdk st hand).1.holdCount s = st.holdCount s
      ∧ ((handStep sdk st hand).1.pressed s = true → st.pressed s = true)
      ∧ (st.pressed s = true → st.holdCount s ≠ 40 →
          (handStep sdk st hand).1.pressed s = true) := by
  have hb := candidateBody_other_side sdk st hand s hs
  have hr := releaseCheck_side (candidateBody sdk st hand).1 s
  simp only [handStep]
  rw [hb.1, hb.2] at hr
  exact hr

/-- Hands that do not report side `s` keep an unpressed `s` unpressed. -/
theorem forHands_keeps_unpressed (sdk : Sdk α) (s : Side) (hands : List (Hand α))
    (hs : ∀ h ∈ hands, h.onSide s = false) (st : GestureState)
    (hp : st.pressed s = false) : (forHands sdk st hands).1.pressed s = false := by
  induction hands generalizing st with
  | nil => exact hp
  | cons h t ih =>
    have h1 := handStep_other_side sdk st h s (hs h (List.mem_cons_self h t))
    have h2 : (handStep sdk st h).1.pressed s = false := by
      cases hc : (handStep sdk st h).1.pressed s with
      | false => rfl
      | true => rw [h1.2.1 hc] at hp; exact absurd hp (by decide)
    exact ih (fun x hx => hs x (List.mem_cons_of_mem h hx)) _ h2

/-- Hands that do not report side `s` keep a pressed `s` pressed with the same
counter, as long as that counter is not 40. -/
theorem forHands_keeps_pressed (sdk : Sdk α) (s : Side) (hands : List (Hand α))
    (hs : ∀ h ∈ hands, h.onSide s = false) (st : GestureState)
    (hp : st.pressed s = true) (hc : st.holdCount s ≠ 40) :
    (forHands sdk st hands).1.pressed s = true
      ∧ (forHands sdk st hands).1.holdCount s = st.holdCount s := by
  induction hands generalizing st with
  | nil => exact ⟨hp, rfl⟩
  | cons h t ih =>
    have h1 := handStep_other_side sdk st h s (hs h (List.mem_cons_self h t))
    have h2 := ih (fun x hx => hs x (List.mem_cons_of_mem h hx)) (handStep sdk st h).1
      (h1.2.2 hp hc) (by rw [h1.1]; exact hc)
    exact ⟨h2.1, by rw [← h1.1]; exact h2.2⟩

/-- A pushing hand on an unpressed side: that side becomes pressed with counter
0 and the hand step makes exactly one `update`, for this hand. -/
theorem handStep_press (sdk : Sdk α) (st : GestureState) (hand : Hand α) (s : Side)
    (hside : hand.isOnly s = true) (hvel : hand.palmVelocity.z < -90)
    (hp : st.pressed s = false) :
    (handStep sdk st hand).1.pressed s = true
      ∧ (handStep sdk st hand).1.holdCount s = 0
      ∧ updatesOf (handStep sdk st hand).2 = [point sdk hand] := by
  have hcand : isCandidate st hand = true := by simp [isCandidate, hvel]
  have hbody : candidateBody sdk st hand
      = (pressChain st hand, [EmitterCall.update (point sdk hand)]) := by
    simp [candidateBody, hcand]
  have hchain : (pressChain st hand).pressed s = true
      ∧ (pressChain st hand).holdCount s = 0 := by
    cases s <;> simp only [Hand.isOnly, Bool.and_eq_true, Bool.not_eq_true'] at hside <;>
      simp only [GestureState.pressed] at hp <;>
      simp [pressChain, hp, hside.1, hside.2, GestureState.pressed, GestureState.holdCount]
  have hr := releaseCheck_side (pressChain st hand) s
  refine ⟨?_, ?_, ?_⟩
  · simp only [handStep, hbody]
    exact hr.2.2 hchain.1 (by rw [hchain.2]; decide)
  · simp only [handStep, hbody]
    rw [hr.1]; exact hchain.2
  · simp only [handStep, hbody, updatesOf_append, updatesOf_stopCheck]
    rfl

/-- Hands that do not report side `s` leave the counter of `s` alone. -/
theorem forHands_keeps_count (sdk : Sdk α) (s : Side) (hands : List (Hand α))
    (hs : ∀ h ∈ hands, h.onSide s = false) (st : GestureState) :
    (forHands sdk st hands).1.holdCount s = st.holdCount s := by
  induction hands generalizing st with
  | nil => rfl
  | cons h t ih =>
    have h1 := handStep_other_side sdk st h s (hs h (List.mem_cons_self h t))
    exact (ih (fun x hx => hs x (List.mem_cons_of_mem h hx)) _).trans h1.1

/-- After any hand step the left side is not left pressed at 40. -/
theorem handStep_not_leftDue (sdk : Sdk α) (st : GestureState) (hand : Hand α) :
    ¬ leftDue (handStep sdk st hand).1 := by
  simp only [handStep, leftDue, releaseCheck, pressed_released_count]
  split_ifs <;> simp_all

theorem forHands_not_leftDue (sdk : Sdk α) (hands : List (Hand α)) (st : GestureState)
    (h0 : ¬ leftDue st) : ¬ leftDue (forHands sdk st hands).1 := by
  induction hands generalizing st with
  | nil => exact h0
  | cons h t ih => exact ih _ (handStep_not_leftDue sdk st h)

/-- On a hand exactly on a pressed side `s` the press chain adds one to the
counter of `s` and changes nothing else. -/
theorem pressChain_hold {α : Type} (st : GestureState) (hand : Hand α) (s : Side)
    (hside : hand.isOnly s = true) (hp : st.pressed s = true) :
    (pressChain st hand).holdCount s = st.holdCount s + 1
      ∧ (pressChain st hand).pressed s = true
      ∧ (s = Side.right → leftDue (pressChain st hand) → leftDue st) := by
  cases s <;> simp only [Hand.isOnly, Bool.and_eq_true, Bool.not_eq_true'] at hside <;>
    simp only [GestureState.pressed] at hp <;>
    simp [pressChain, hp, hside.1, hside.2, GestureState.pressed, GestureState.holdCount,
      leftDue]

/-- The release check releases a pressed side whose counter stands at 40,
unless that side is the right one and the left side is due as well. -/
theorem releaseCheck_release (st : GestureState) (s : Side)
    (hp : st.pressed s = true) (hc : st.holdCount s = 40)
    (hg : s = Side.right → ¬ leftDue st) : (releaseCheck st).pressed s = false := by
  cases s <;>
    simp only [GestureState.pressed, GestureState.holdCount] at hp hc <;>
    simp only [releaseCheck, GestureState.pressed, pressed_released_count, hp, hc]
  · simp
  · have hnd : ¬ (st.left_pressed = true ∧ st.left_count = 40) := hg rfl
    by_cases hl : st.left_pressed = true
    · have : st.left_count ≠ 40 := fun h => hnd ⟨hl, h⟩
      simp [hl, this]
    · simp [hl]

/-- A hand exactly on a pressed side `s`: the counter of `s` goes up by one, one
`update` is made for the hand, and `s` is released when the counter reaches 40,
unless `s` is the right side and the left side is due at the same check. -/
theorem handStep_hold (sdk : Sdk α) (st : GestureState) (hand : Hand α) (s : Side)
    (hside : hand.isOnly s = true) (hp : st.pressed s = true) :
    (handStep sdk st hand).1.holdCount s = st.holdCount s + 1
      ∧ (st.holdCount s + 1 ≠ 40 → (handStep sdk st hand).1.pressed s = true)
      ∧ (st.holdCount s + 1 = 40 → (s = Side.right → ¬ leftDue st) →
          (handStep sdk st hand).1.pressed s = false)
      ∧ updatesOf (handStep sdk st hand).2 = [point sdk hand] := by
  have hcand : isCandidate st hand = true := by
    cases s <;> simp only [Hand.isOnly, Bool.and_eq_true, Bool.not_eq_true'] at hside <;>
      simp only [GestureState.pressed] at hp <;>
      simp [isCandidate, hp, hside.1]
  have hbody : candidateBody sdk st hand
      = (pressChain st hand, [EmitterCall.update (point sdk hand)]) := by
    simp [candidateBody, hcand]
  have hch := pressChain_hold st hand s hside hp
  have hr := releaseCheck_side (pressChain st hand) s
  refine ⟨?_, ?_, ?_, ?_⟩
  · simp only [handStep, hbody]
    exact hr.1.trans hch.1
  · intro hne
    simp only [handStep, hbody]
    exact hr.2.2 hch.2.1 (by rw [hch.1]; exact hne)
  · intro heq hg
    simp only [handStep, hbody]
    exact releaseCheck_release _ s hch.2.1 (hch.1.trans heq)
      (fun hs hd => hg hs (hch.2.2 hs hd))
  · simp only [handStep, hbody, updatesOf_append, updatesOf_stopCheck]
    rfl

/-- One iteration on a frame holding side `s`. -/
theorem iteration_hold (sdk : Sdk α) (s : Side) (st : GestureState)
    (hands : List (Hand α)) (hf : heldFrame s hands)
    (hp : st.pressed s = true) (hc : st.holdCount s ≠ 40)
    (hg : st.holdCount s + 1 = 40 → s = Side.right → ¬ leftDue st) :
    (iteration sdk st hands).1.holdCount s = st.holdCount s + 1
      ∧ (st.holdCount s + 1 ≠ 40 → (iteration sdk st hands).1.pressed s = true)
      ∧ (st.holdCount s + 1 = 40 → (iteration sdk st hands).1.pressed s = false)
      ∧ ¬ leftDue (iteration sdk st hands).1 := by
  obtain ⟨hone, pre, hand, post, rfl, hside⟩ := hf
  have hoff := others_off_side s pre post hand (isOnly_onSide hand s hside) hone
  have h1 := forHands_keeps_pressed sdk s pre hoff.1 st hp hc
  have hstep := handStep_hold sdk (forHands sdk st pre).1 hand s hside h1.1
  rw [h1.2] at hstep
  have hcnt := forHands_keeps_count sdk s post hoff.2
    (handStep sdk (forHands sdk st pre).1 hand).1
  have hdue := forHands_not_leftDue sdk post _
    (handStep_not_leftDue sdk (forHands sdk st pre).1 hand)
  rw [iteration_of_ne_nil sdk st _ (by simp), forHands_append]
  refine ⟨hcnt.trans hstep.1, ?_, ?_, hdue⟩
  · intro hne
    exact (forHands_keeps_pressed sdk s post hoff.2 _ (hstep.2.1 hne)
      (by rw [hstep.1]; exact hne)).1
  · intro heq
    exact forHands_keeps_unpressed sdk s post hoff.2 _
      (hstep.2.2.1 heq (fun hs => forHands_not_leftDue sdk pre st (hg heq hs)))

theorem qualifies_eq_isCandidate (st : GestureState) (hand : Hand α) :
    qualifies st hand = isCandidate st hand := by
  simp only [qualifies, isCandidate, Hand.onSide, GestureState.pressed]
  cases st.left_pressed <;> cases st.right_pressed <;> cases hand.isLeft <;>
    cases hand.isRight <;> simp

theorem updatesOf_handStep (sdk : Sdk α) (st : GestureState) (hand : Hand α) :
    updatesOf (handStep sdk st hand).2
      = if qualifies st hand then [point sdk hand] else [] := by
  rw [qualifies_eq_isCandidate]
  simp only [handStep, candidateBody, updatesOf_append, updatesOf_stopCheck]
  split <;> rfl

theorem updatesOf_forHands (sdk : Sdk α) (hands : List (Hand α)) (st : GestureState) :
    updatesOf (forHands sdk st hands).2 = (candidateHands sdk st hands).map (point sdk) := by
  induction hands generalizing st with
  | nil => rfl
  | cons h t ih =>
    simp only [forHands, candidateHands, updatesOf_append, updatesOf_handStep, ih]
    split <;> simp

/-- The release check does nothing on a state that satisfies the invariant. -/
theorem releaseCheck_of_inv (st : GestureState) (hinv : CounterInv st) :
    releaseCheck st = st := by
  obtain ⟨-, -, hl, hr⟩ := hinv
  simp only [releaseCheck, pressed_released_count]
  have h1 : ¬ (st.left_pressed = true ∧ st.left_count = 40) := fun h => by
    have := hl h.1; omega
  have h2 : ¬ (st.right_pressed = true ∧ st.right_count = 40) := fun h => by
    have := hr h.1; omega
  simp only [Bool.and_eq_true, decide_eq_true_eq, h1, h2, if_false]

theorem pressChain_bounds {α : Type} (st : GestureState) (hand : Hand α) (hinv : CounterInv st) :
    (0 ≤ (pressChain st hand).left_count ∧ (pressChain st hand).left_count ≤ 40)
      ∧ (0 ≤ (pressChain st hand).right_count ∧ (pressChain st hand).right_count ≤ 40) := by
  obtain ⟨⟨hl0, hl40⟩, ⟨hr0, hr40⟩, hl, hr⟩ := hinv
  simp only [pressChain]
  split_ifs with h1 h2 h3 h4
  · simp only [le_refl, true_and]; omega
  · simp only [Bool.and_eq_true] at h2
    have := hl h2.1
    simp only; omega
  · simp only [le_refl, true_and]; omega
  · simp only [Bool.and_eq_true] at h4
    have := hr h4.1
    simp only; omega
  · exact ⟨⟨hl0, hl40⟩, hr0, hr40⟩

theorem releaseCheck_inv (st : GestureState)
    (hb : (0 ≤ st.left_count ∧ st.left_count ≤ 40)
      ∧ (0 ≤ st.right_count ∧ st.right_count ≤ 40))
    (hone : st.left_pressed = true → st.left_count = 40 →
      st.right_pressed = true → st.right_count < 40) :
    CounterInv (releaseCheck st) := by
  obtain ⟨⟨hl0, hl40⟩, hr0, hr40⟩ := hb
  simp only [releaseCheck, pressed_released_count]
  split_ifs with h1 h2
  · simp only [Bool.and_eq_true, decide_eq_true_eq] at h1
    exact ⟨⟨hl0, hl40⟩, ⟨hr0, hr40⟩, fun h => absurd h (by simp), hone h1.1 h1.2⟩
  · simp only [Bool.and_eq_true, decide_eq_true_eq] at h1 h2
    refine ⟨⟨hl0, hl40⟩, ⟨hr0, hr40⟩, fun h => ?_, fun h => absurd h (by simp)⟩
    have : st.left_count ≠ 40 := fun h40 => h1 ⟨h, h40⟩
    show st.left_count < 40
    omega
  · simp only [Bool.and_eq_true, decide_eq_true_eq] at h1 h2
    refine ⟨⟨hl0, hl40⟩, ⟨hr0, hr40⟩, fun h => ?_, fun h => ?_⟩
    · have : st.left_count ≠ 40 := fun h40 => h1 ⟨h, h40⟩
      omega
    · have : st.right_count ≠ 40 := fun h40 => h2 ⟨h, h40⟩
      omega

/-- The press chain moves at most one counter, so after it at most one side
can stand pressed at 40. -/
theorem pressChain_one_due {α : Type} (st : GestureState) (hand : Hand α) (hinv : CounterInv st) :
    (pressChain st hand).left_pressed = true → (pressChain st hand).left_count = 40 →
      (pressChain st hand).right_pressed = true → (pressChain st hand).right_count < 40 := by
  obtain ⟨-, -, hl, hr⟩ := hinv
  simp only [pressChain]
  split_ifs with h1 h2 h3 h4
  · intro _ h; simp at h
  · intro _ _ h; exact hr h
  · intro _ _ _; simp
  · intro hlp h40 _
    have := hl hlp
    have h40b : st.left_count = 40 := h40
    omega
  · intro hlp h40 _
    have := hl hlp
    omega

theorem handStep_inv (sdk : Sdk α) (st : GestureState) (hand : Hand α)
    (hinv : CounterInv st) : CounterInv (handStep sdk st hand).1 := by
  simp only [handStep, candidateBody]
  split
  · exact releaseCheck_inv _ (pressChain_bounds st hand hinv)
      (pressChain_one_due st hand hinv)
  · rw [releaseCheck_of_inv st hinv]; exact hinv

theorem forHands_inv (sdk : Sdk α) (hands : List (Hand α)) (st : GestureState)
    (hinv : CounterInv st) : CounterInv (forHands sdk st hands).1 := by
  induction hands generalizing st with
  | nil => exact hinv
  | cons h t ih => exact ih _ (handStep_inv sdk st h hinv)

theorem iteration_inv (sdk : Sdk α) (st : GestureState) (hands : List (Hand α))
    (hinv : CounterInv st) : CounterInv (iteration sdk st hands).1 := by
  cases hands with
  | nil => exact hinv
  | cons h t => exact forHands_inv sdk (h :: t) st hinv

theorem runLoop_inv (sdk : Sdk α) (frames : List (List (Hand α))) (st : GestureState)
    (hinv : CounterInv st) : CounterInv (runLoop sdk st frames).1 := by
  induction frames generalizing st with
  | nil => exact hinv
  | cons f fs ih => exact ih _ (iteration_inv sdk st f hinv)

theorem initialState_inv : CounterInv initialState := by
  simp [CounterInv, initialState]

theorem reachable_inv (sdk : Sdk α) (st : GestureState) (h : Reachable sdk st) :
    CounterInv st := by
  obtain ⟨frames, rfl⟩ := h
  exact runLoop_inv sdk frames initialState initialState_inv

/-- A hand that does not qualify, on a state satisfying the invariant: the
state is unchanged and the only possible call is the `stop` of line 85. -/
theorem handStep_not_qualifying (sdk : Sdk α) (st : GestureState) (hand : Hand α)
    (hinv : CounterInv st) (hq : qualifies st hand = false) :
    handStep sdk st hand = (st, stopCheck st) := by
  rw [qualifies_eq_isCandidate] at hq
  simp [handStep, candidateBody, hq, releaseCheck_of_inv st hinv]

theorem forHands_none_qualify (sdk : Sdk α) (st : GestureState) (hinv : CounterInv st)
    (hands : List (Hand α)) (hnone : ∀ h ∈ hands, qualifies st h = false) :
    (forHands sdk st hands).1 = st
      ∧ updatesOf (forHands sdk st hands).2 = []
      ∧ (EmitterCall.stop ∈ (forHands sdk st hands).2 ↔
          hands ≠ [] ∧ st.left_pressed = false ∧ st.right_pressed = false) := by
  induction hands with
  | nil => simp [forHands, updatesOf]
  | cons h t ih =>
    have hstep := handStep_not_qualifying sdk st h hinv (hnone h (List.mem_cons_self h t))
    have ht := ih (fun x hx => hnone x (List.mem_cons_of_mem h hx))
    simp only [forHands, hstep, updatesOf_append, updatesOf_stopCheck, ht.1, ht.2.1,
      List.mem_append, ht.2.2]
    refine ⟨trivial, rfl, ?_⟩
    simp only [stopCheck]
    cases st.left_pressed <;> cases st.right_pressed <;> simp

theorem runLoop_append (sdk : Sdk α) (xs ys : List (List (Hand α))) (st : GestureState) :
    runLoop sdk st (xs ++ ys) =
      ((runLoop sdk (runLoop sdk st xs).1 ys).1,
        (runLoop sdk st xs).2 ++ (runLoop sdk (runLoop sdk st xs).1 ys).2) := by
  induction xs generalizing st with
  | nil => simp [runLoop]
  | cons f fs ih => simp [runLoop, ih]

theorem statesAfter_append (sdk : Sdk α) (xs ys : List (List (Hand α)))
    (st : GestureState) :
    statesAfter sdk st (xs ++ ys) =
      statesAfter sdk st xs ++ statesAfter sdk (runLoop sdk st xs).1 ys := by
  induction xs generalizing st with
  | nil => simp [statesAfter, runLoop]
  | cons f fs ih => simp [statesAfter, runLoop, ih]

/-- The push frame from the initial state. -/
theorem iteration_press_single (sdk : Sdk α) (s : Side) (hand : Hand α)
    (hside : hand.isOnly s = true) (hvel : hand.palmVelocity.z < -90) :
    iteration sdk initialState [hand]
      = (heldState s 0, [EmitterCall.update (point sdk hand)]) := by
  cases s <;> simp only [Hand.isOnly, Bool.and_eq_true, Bool.not_eq_true'] at hside <;>
    simp [iteration, forHands, handStep, candidateBody, isCandidate, pressChain,
      releaseCheck, stopCheck, heldState, initialState, hside.1, hside.2, hvel,
      pressed_released_count]

/-- A hold frame before the counter reaches 40. -/
theorem iteration_hold_single (sdk : Sdk α) (s : Side) (hand : Hand α) (k : Int)
    (hside : hand.isOnly s = true) (hk : k + 1 ≠ 40) :
    iteration sdk (heldState s k) [hand]
      = (heldState s (k + 1), [EmitterCall.update (point sdk hand)]) := by
  cases s <;> simp only [Hand.isOnly, Bool.and_eq_true, Bool.not_eq_true'] at hside <;>
    simp [iteration, forHands, handStep, candidateBody, isCandidate, pressChain,
      releaseCheck, stopCheck, heldState, hside.1, hside.2, hk, pressed_released_count]

/-- The hold frame on which the counter reaches 40. -/
theorem iteration_release_single (sdk : Sdk α) (s : Side) (hand : Hand α)
    (hside : hand.isOnly s = true) :
    iteration sdk (heldState s 39) [hand]
      = (releasedState s, [EmitterCall.update (point sdk hand), EmitterCall.stop]) := by
  cases s <;> simp only [Hand.isOnly, Bool.and_eq_true, Bool.not_eq_true'] at hside <;>
    simp [iteration, forHands, handStep, candidateBody, isCandidate, pressChain,
      releaseCheck, stopCheck, heldState, releasedState, hside.1, hside.2,
      pressed_released_count]

/-- A run of hold frames that stays below 40: one `update` per iteration, side
`s` pressed and the other side unpressed after each of them. -/
theorem runLoop_hold (sdk : Sdk α) (s : Side) (hands : List (Hand α)) (k : Nat)
    (hside : ∀ h ∈ hands, h.isOnly s = true) (hk : k + hands.length < 40) :
    runLoop sdk (heldState s k) (hands.map (fun h => [h]))
        = (heldState s ((k + hands.length : Nat) : Int),
            hands.map (fun h => [EmitterCall.update (point sdk h)]))
      ∧ ∀ t, (statesAfter sdk (heldState s k) (hands.map (fun h => [h]))).map
            (fun st => st.pressed t)
          = List.replicate hands.length (decide (t = s)) := by
  induction hands generalizing k with
  | nil => exact ⟨rfl, fun _ => rfl⟩
  | cons h t ih =>
    simp only [List.length_cons] at hk
    have hstep := iteration_hold_single sdk s h (k : Int)
      (hside h (List.mem_cons_self h t)) (by omega)
    have hnext := ih (k + 1) (fun x hx => hside x (List.mem_cons_of_mem h hx)) (by omega)
    have hcast : ((k : Int) + 1) = ((k + 1 : Nat) : Int) := by push_cast; ring
    rw [hcast] at hstep
    refine ⟨?_, fun u => ?_⟩
    · simp only [List.map_cons, runLoop, hstep, hnext.1, List.length_cons]
      have : k + 1 + t.length = k + (t.length + 1) := by omega
      rw [this]
    · simp only [List.map_cons, statesAfter, hstep, hnext.2 u, List.length_cons,
        List.replicate_succ]
      congr 1
      cases s <;> cases u <;> simp [heldState, GestureState.pressed]

/-! ### The code's gate against the specification's gate -/

/-- On a state satisfying the invariant no side is due, so the independent
release changes nothing. -/
theorem independentRelease_of_inv (st : GestureState) (hinv : CounterInv st) :
    independentRelease st = st := by
  obtain ⟨-, -, hl, hr⟩ := hinv
  have h1 : ¬ (st.left_pressed = true ∧ st.left_count = 40) := fun h => by
    have := hl h.1; omega
  have h2 : ¬ (st.right_pressed = true ∧ st.right_count = 40) := fun h => by
    have := hr h.1; omega
  simp only [independentRelease, Bool.and_eq_true, decide_eq_true_eq, h1, h2, if_false]

/-- The code's release check finds nothing left to do after the independent
release. -/
theorem releaseCheck_independentRelease (p : GestureState) :
    releaseCheck (independentRelease p) = independentRelease p := by
  rcases p with ⟨lp, rp, lc, rc⟩
  simp only [releaseCheck, independentRelease, pressed_released_count]
  cases lp <;> cases rp <;> by_cases hl : lc = 40 <;> by_cases hr : rc = 40 <;>
    simp [hl, hr]

/-- For a hand exactly on side `s`, the specification's update is the update
of side `s` when the hand qualifies. -/
theorem specHandUpdate_isOnly (p : GestureState) (hand : Hand α) (s : Side)
    (hside : hand.isOnly s = true) :
    specHandUpdate p hand = if qualifies p hand then pressOrIncrement p s else p := by
  cases s <;> simp only [Hand.isOnly, Bool.and_eq_true, Bool.not_eq_true'] at hside <;>
    simp [specHandUpdate, independentChain, hside.1, hside.2]

/-- The candidate test of the code on the released form of `p` agrees with the
specification's test on `p`, for a hand exactly on a side that is not due. -/
theorem isCandidate_independentRelease (p : GestureState) (hand : Hand α) (s : Side)
    (hside : hand.isOnly s = true)
    (hnd : ¬ (p.pressed s = true ∧ p.holdCount s = 40)) :
    isCandidate (independentRelease p) hand = qualifies p hand := by
  rcases p with ⟨lp, rp, lc, rc⟩
  cases s <;> simp only [Hand.isOnly, Bool.and_eq_true, Bool.not_eq_true'] at hside <;>
    simp only [GestureState.pressed, GestureState.holdCount] at hnd <;>
    simp only [isCandidate, qualifies, independentRelease, Hand.onSide,
      GestureState.pressed, hside.1, hside.2] <;>
    cases lp <;> cases rp <;> simp_all

/-- Press chain and release check of the code, from the released form of `p`,
against the specification's update of side `s` followed by the independent
release. -/
theorem releaseCheck_pressChain_refines {α : Type} (p : GestureState) (hand : Hand α)
    (s : Side) (hside : hand.isOnly s = true)
    (hnd : ¬ (p.pressed s = true ∧ p.holdCount s = 40)) :
    releaseCheck (pressChain (independentRelease p) hand)
      = independentRelease (pressOrIncrement p s) := by
  rcases p with ⟨lp, rp, lc, rc⟩
  cases s <;> simp only [Hand.isOnly, Bool.and_eq_true, Bool.not_eq_true'] at hside <;>
    simp only [GestureState.pressed, GestureState.holdCount] at hnd <;>
    simp only [pressChain, releaseCheck, independentRelease, pressOrIncrement,
      pressed_released_count, hside.1, hside.2] <;>
    cases lp <;> cases rp <;>
    by_cases hl : lc = 40 <;> by_cases hr : rc = 40 <;>
    by_cases hl1 : lc + 1 = 40 <;> by_cases hr1 : rc + 1 = 40 <;>
    simp_all

/-- One hand step of the code, started from the released form of a state `p`,
ends in the released form of the specification's update of `p`, when the hand
is exactly on a side that is not due in `p`. -/
theorem handStep_refines (sdk : Sdk α) (p : GestureState) (hand : Hand α) (s : Side)
    (hside : hand.isOnly s = true)
    (hnd : ¬ (p.pressed s = true ∧ p.holdCount s = 40)) :
    (handStep sdk (independentRelease p) hand).1
      = independentRelease (specHandUpdate p hand) := by
  simp only [handStep, candidateBody, isCandidate_independentRelease p hand s hside hnd,
    specHandUpdate_isOnly p hand s hside]
  cases qualifies p hand
  · simpa using releaseCheck_independentRelease p
  · simpa using releaseCheck_pressChain_refines p hand s hside hnd

theorem specHandUpdate_other_side (p : GestureState) (hand : Hand α) (u : Side)
    (hu : hand.onSide u = false) :
    (specHandUpdate p hand).pressed u = p.pressed u
      ∧ (specHandUpdate p hand).holdCount u = p.holdCount u := by
  cases u <;> simp only [Hand.onSide] at hu <;>
    simp only [specHandUpdate, independentChain, pressOrIncrement, hu,
      GestureState.pressed, GestureState.holdCount] <;>
    split_ifs <;> simp_all

theorem oneSided_isOnly {α : Type} (hand : Hand α) (h : hand.oneSided = true) :
    ∃ s, hand.isOnly s = true := by
  simp only [Hand.oneSided] at h
  cases hl : hand.isLeft <;> cases hr : hand.isRight <;> simp [hl, hr] at h
  · exact ⟨Side.right, by simp [Hand.isOnly, hl, hr]⟩
  · exact ⟨Side.left, by simp [Hand.isOnly, hl, hr]⟩

theorem atMostOnePerSide_tail {α : Type} (hand : Hand α) (rest : List (Hand α))
    (h : atMostOnePerSide (hand :: rest)) : atMostOnePerSide rest := by
  have key : ∀ f : Hand α → Bool, (hand :: rest).countP f ≤ 1 → rest.countP f ≤ 1 := by
    intro f hf
    rw [List.countP_cons] at hf
    omega
  exact ⟨key _ h.1, key _ h.2⟩

/-- The `for` loop of the code against the specification's gate, on a frame of
one-sided hands with at most one hand per side, started from the released form
of a state whose due sides have no hand in the frame. -/
theorem forHands_refines (sdk : Sdk α) (hands : List (Hand α)) (p : GestureState)
    (hone : atMostOnePerSide hands) (hsided : ∀ h ∈ hands, h.oneSided = true)
    (hdue : ∀ u, p.pressed u = true ∧ p.holdCount u = 40 →
      ∀ h ∈ hands, h.onSide u = false) :
    (forHands sdk (independentRelease p) hands).1
      = independentRelease (hands.foldl specHandUpdate p) := by
  induction hands generalizing p with
  | nil => rfl
  | cons h t ih =>
    obtain ⟨s, hs⟩ := oneSided_isOnly h (hsided h (List.mem_cons_self h t))
    have hon := isOnly_onSide h s hs
    have hnd : ¬ (p.pressed s = true ∧ p.holdCount s = 40) := fun hd => by
      have := hdue s hd h (List.mem_cons_self h t)
      rw [hon] at this
      exact absurd this (by decide)
    have hstep := handStep_refines sdk p h s hs hnd
    have hoff := (others_off_side s [] t h hon hone).2
    simp only [forHands, List.foldl_cons, hstep]
    apply ih (specHandUpdate p h) (atMostOnePerSide_tail h t hone)
      (fun x hx => hsided x (List.mem_cons_of_mem h hx))
    intro u hu x hx
    by_cases hus : u = s
    · subst hus; exact hoff x hx
    · have hhu : h.onSide u = false := by
        cases u <;> cases s <;>
          simp only [Hand.isOnly, Bool.and_eq_true, Bool.not_eq_true'] at hs <;>
          simp_all [Hand.onSide]
      have hsame := specHandUpdate_other_side p h u hhu
      rw [hsame.1, hsame.2] at hu
      exact hdue u hu x (List.mem_cons_of_mem h hx)

/-- The gate of the code and the gate in the specification's words give the
same state on a state satisfying the invariant and a frame of one-sided hands
with at most one hand per side. -/
theorem iteration_refines (sdk : Sdk α) (st : GestureState) (hands : List (Hand α))
    (hinv : CounterInv st) (hone : atMostOnePerSide hands)
    (hsided : ∀ h ∈ hands, h.oneSided = true) :
    (iteration sdk st hands).1 = specGate st hands := by
  have hst := independentRelease_of_inv st hinv
  have hdue : ∀ u, st.pressed u = true ∧ st.holdCount u = 40 →
      ∀ h ∈ hands, h.onSide u = false := by
    intro u hu
    obtain ⟨-, -, hl, hr⟩ := hinv
    cases u <;> simp only [GestureState.pressed, GestureState.holdCount] at hu
    · have := hl hu.1; omega
    · have := hr hu.1; omega
  have hf := forHands_refines sdk hands st hone hsided hdue
  rw [hst] at hf
  cases hands with
  | nil => exact hst.symm
  | cons h t => exact hf

/-! ### A new left hand together with a continuing right hand -/

/-- For a hand that is exactly one of left/right the `else if` chain of the
code is the independent evaluation of both sides. -/
theorem pressChain_eq_independentChain {α : Type} (st : GestureState) (hand : Hand α)
    (h : hand.oneSided = true) : pressChain st hand = independentChain st hand := by
  obtain ⟨s, hs⟩ := oneSided_isOnly hand h
  rcases st with ⟨lp, rp, lc, rc⟩
  cases s <;> simp only [Hand.isOnly, Bool.and_eq_true, Bool.not_eq_true'] at hs <;>
    simp only [pressChain, independentChain, pressOrIncrement, hs.1, hs.2] <;>
    cases lp <;> cases rp <;> simp

/-- A frame with at most one hand per side, all hands one-sided, that contains a
left hand and a right hand consists of these two hands. -/
theorem two_hand_frame {α : Type} (hands : List (Hand α)) (l r : Hand α)
    (hone : atMostOnePerSide hands) (hsided : ∀ h ∈ hands, h.oneSided = true)
    (hl : l ∈ hands) (hr : r ∈ hands)
    (hls : l.isOnly Side.left = true) (hrs : r.isOnly Side.right = true) :
    hands = [l, r] ∨ hands = [r, l] := by
  obtain ⟨pre, post, rfl⟩ := List.append_of_mem hl
  simp only [Hand.isOnly, Bool.and_eq_true, Bool.not_eq_true'] at hls hrs
  have hoff := others_off_side Side.left pre post l hls.1 hone
  have hright : ∀ x : Hand α, x.isLeft = false → x.oneSided = true →
      x.isRight = true := by
    intro x hx hx1
    simp only [Hand.oneSided, hx] at hx1
    simpa using hx1
  have hpre : pre.countP (fun h => h.isRight) = pre.length :=
    List.countP_eq_length.mpr (fun x hx =>
      hright x (hoff.1 x hx) (hsided x (by simp [hx])))
  have hpost : post.countP (fun h => h.isRight) = post.length :=
    List.countP_eq_length.mpr (fun x hx =>
      hright x (hoff.2 x hx) (hsided x (by simp [hx])))
  have hcount := hone.2
  rw [List.countP_append, List.countP_cons, hpre, hpost] at hcount
  simp only [hls.2] at hcount
  have hrmem : r ∈ pre ∨ r ∈ post := by
    rcases List.mem_append.mp hr with h1 | h1
    · exact Or.inl h1
    · rcases List.mem_cons.mp h1 with h2 | h2
      · rw [h2, hls.1] at hrs; exact absurd hrs.2 (by decide)
      · exact Or.inr h2
  rcases hrmem with h1 | h1
  · have hlen : pre.length = 1 := by
      have := List.length_pos_of_mem h1; omega
    have hpost0 : post = [] := List.eq_nil_of_length_eq_zero (by omega)
    obtain ⟨x, rfl⟩ := List.length_eq_one.mp hlen
    have hx : r = x := by simpa using h1
    subst hx hpost0
    exact Or.inr rfl
  · have hlen : post.length = 1 := by
      have := List.length_pos_of_mem h1; omega
    have hpre0 : pre = [] := List.eq_nil_of_length_eq_zero (by omega)
    obtain ⟨x, rfl⟩ := List.length_eq_one.mp hlen
    have hx : r = x := by simpa using h1
    subst hx hpre0
    exact Or.inl rfl

/-- A pushing hand exactly on the left on an unpressed left side, and a hand
exactly on the right on a pressed right side, in either order: the gate in the
specification's words presses left with counter 0 and adds one to the right
counter before the release. -/
theorem specGate_new_left_continuing_right (st : GestureState) (l r : Hand α)
    (hls : l.isOnly Side.left = true) (hvel : l.palmVelocity.z < -90)
    (hlp : st.left_pressed = false)
    (hrs : r.isOnly Side.right = true) (hrp : st.right_pressed = true) :
    specGate st [l, r] = independentRelease ⟨true, true, 0, st.right_count + 1⟩
      ∧ specGate st [r, l] = independentRelease ⟨true, true, 0, st.right_count + 1⟩ := by
  rcases st with ⟨lp, rp, lc, rc⟩
  simp only at hlp hrp
  subst hlp hrp
  simp only [Hand.isOnly, Bool.and_eq_true, Bool.not_eq_true'] at hls hrs
  constructor <;>
    simp [specGate, specHandUpdate, independentChain, pressOrIncrement, qualifies,
      Hand.onSide, GestureState.pressed, hls.1, hls.2, hrs.1, hrs.2, hvel]

/-- With the left counter at 0 the release check of the code and the
independent release agree. -/
theorem releaseCheck_left_zero (rp : Bool) (rc : Int) :
    releaseCheck ⟨true, rp, 0, rc⟩ = independentRelease ⟨true, rp, 0, rc⟩ := by
  simp only [releaseCheck, independentRelease, pressed_released_count]
  cases rp <;> by_cases h : rc = 40 <;> simp [h]

/-- The iteration of the code on a frame with a newly pressing left hand and a
continuing right hand updates both sides. -/
theorem iteration_new_left_continuing_right (sdk : Sdk α) (st : GestureState)
    (hands : List (Hand α)) (l r : Hand α)
    (hinv : CounterInv st) (hone : atMostOnePerSide hands)
    (hsided : ∀ h ∈ hands, h.oneSided = true) (hl : l ∈ hands) (hr : r ∈ hands)
    (hls : l.isOnly Side.left = true) (hvel : l.palmVelocity.z < -90)
    (hlp : st.left_pressed = false)
    (hrs : r.isOnly Side.right = true) (hrp : st.right_pressed = true) :
    (iteration sdk st hands).1 = releaseCheck ⟨true, true, 0, st.right_count + 1⟩ := by
  have href := iteration_refines sdk st hands hinv hone hsided
  have hspec := specGate_new_left_continuing_right st l r hls hvel hlp hrs hrp
  rw [href, releaseCheck_left_zero]
  rcases two_hand_frame hands l r hone hsided hl hr hls hrs with h | h
  · rw [h]; exact hspec.1
  · rw [h]; exact hspec.2

/-! ### The invariant read per side, and absent sides -/

theorem counterInv_side (st : GestureState) (hinv : CounterInv st) (s : Side) :
    (0 ≤ st.holdCount s ∧ st.holdCount s ≤ 40)
      ∧ (st.pressed s = true → st.holdCount s < 40) := by
  obtain ⟨hl, hr, hlp, hrp⟩ := hinv
  cases s
  · exact ⟨hl, hlp⟩
  · exact ⟨hr, hrp⟩

/-- The code's asymmetry is real for a hand that reports both sides: the chain
stops after the left branch, the independent evaluation also updates right. -/
theorem pressChain_differs_on_two_sided :
    pressChain ⟨false, true, 0, 0⟩
        (⟨true, true, ⟨0, 0, 0⟩, ⟨0, 0, -1⟩, ⟨0, 0, -100⟩, ⟨0, 1, 0⟩⟩ : Hand ℚ)
      ≠ independentChain ⟨false, true, 0, 0⟩
        (⟨true, true, ⟨0, 0, 0⟩, ⟨0, 0, -1⟩, ⟨0, 0, -100⟩, ⟨0, 1, 0⟩⟩ : Hand ℚ) := by
  decide

/-- On a state satisfying the invariant, hands that do not report side `s`
leave the flag and the counter of `s` as they are. -/
theorem forHands_absent_side (sdk : Sdk α) (s : Side) (hands : List (Hand α))
    (habs : ∀ h ∈ hands, h.onSide s = false) (st : GestureState) (hinv : CounterInv st) :
    (forHands sdk st hands).1.pressed s = st.pressed s
      ∧ (forHands sdk st hands).1.holdCount s = st.holdCount s := by
  induction hands generalizing st with
  | nil => exact ⟨rfl, rfl⟩
  | cons h t ih =>
    have h1 := handStep_other_side sdk st h s (habs h (List.mem_cons_self h t))
    have hside := counterInv_side st hinv s
    have hflag : (handStep sdk st h).1.pressed s = st.pressed s := by
      cases hp : st.pressed s with
      | true =>
        have hlt := hside.2 hp
        exact h1.2.2 hp (by omega)
      | false =>
        cases hq : (handStep sdk st h).1.pressed s with
        | false => rfl
        | true => rw [h1.2.1 hq] at hp; exact absurd hp (by decide)
    have h2 := ih (fun x hx => habs x (List.mem_cons_of_mem h hx)) (handStep sdk st h).1
      (handStep_inv sdk st h hinv)
    exact ⟨h2.1.trans hflag, h2.2.trans h1.1⟩

/-- Release after the hold duration, for any start state outside one shape:
side `s` pressed with counter `c < 40`, then `40 - c` frames holding side `s`.
The excluded shape is `s` = right with `c = 39` while the left side is pressed
at counter exactly 40, where the release check would take its left branch. -/
theorem runLoop_hold_release (sdk : Sdk α) (s : Side) (frames : List (List (Hand α)))
    (st : GestureState) (c : Nat)
    (hp : st.pressed s = true) (hc : st.holdCount s = (c : Int)) (hlt : c < 40)
    (hlen : frames.length = 40 - c) (hframes : ∀ f ∈ frames, heldFrame s f)
    (hstart : ¬ (s = Side.right ∧ c = 39 ∧ leftDue st)) :
    (∀ k, k < 40 - c →
        (runLoop sdk st (frames.take k)).1.pressed s = true
          ∧ (runLoop sdk st (frames.take k)).1.holdCount s = ((c + k : Nat) : Int))
      ∧ (runLoop sdk st frames).1.pressed s = false := by
  induction frames generalizing st c with
  | nil => simp only [List.length_nil] at hlen; omega
  | cons f fs ih =>
    have hit := iteration_hold sdk s st f (hframes f (List.mem_cons_self f fs)) hp
      (by rw [hc]; omega)
      (fun h40 hs hd => hstart ⟨hs, by rw [hc] at h40; omega, hd⟩)
    rw [hc] at hit
    by_cases hlast : c + 1 = 40
    · have hfs : fs = [] := by
        apply List.eq_nil_of_length_eq_zero
        simp only [List.length_cons] at hlen; omega
      subst hfs
      refine ⟨?_, hit.2.2.1 (by omega)⟩
      intro k hk
      have hk0 : k = 0 := by omega
      subst hk0
      exact ⟨hp, by simpa using hc⟩
    · have hnext := ih (iteration sdk st f).1 (c + 1) (hit.2.1 (by omega))
        (by rw [hit.1]; push_cast; ring) (by omega)
        (by simp only [List.length_cons] at hlen; omega)
        (fun g hg => hframes g (List.mem_cons_of_mem f hg))
        (fun h => hit.2.2.2 h.2.2)
      refine ⟨?_, hnext.2⟩
      intro k hk
      cases k with
      | zero => exact ⟨hp, by simpa using hc⟩
      | succ j =>
        have hj := hnext.1 j (by omega)
        refine ⟨hj.1, ?_⟩
        have : ((c + 1 + j : Nat) : Int) = ((c + (j + 1) : Nat) : Int) := by
          push_cast; ring
        rw [← this]
        exact hj.2

end Facts

/-! ## Geometry over the reals -/

namespace Vector3

theorem dot_cross_left {α : Type} [LinearOrderedField α] (a b : Vector3 α) :
    dot (cross a b) a = 0 := by
  simp only [dot, cross]; ring

theorem dot_cross_right {α : Type} [LinearOrderedField α] (a b : Vector3 α) :
    dot (cross a b) b = 0 := by
  simp only [dot, cross]; ring

theorem dot_self_nonneg (v : Vector3 ℝ) : 0 ≤ dot v v := by
  simp only [dot]
  nlinarith [mul_self_nonneg v.x, mul_self_nonneg v.y, mul_self_nonneg v.z]

theorem dot_self_pos (v : Vector3 ℝ) (h : v ≠ zero) : 0 < dot v v := by
  rcases (dot_self_nonneg v).lt_or_eq with hlt | heq
  · exact hlt
  · exfalso
    apply h
    simp only [dot] at heq
    have hx : v.x = 0 := by
      nlinarith [mul_self_nonneg v.x, mul_self_nonneg v.y, mul_self_nonneg v.z]
    have hy : v.y = 0 := by
      nlinarith [mul_self_nonneg v.x, mul_self_nonneg v.y, mul_self_nonneg v.z]
    have hz : v.z = 0 := by
      nlinarith [mul_self_nonneg v.x, mul_self_nonneg v.y, mul_self_nonneg v.z]
    exact Vector3.ext hx hy hz

theorem length_pos (v : Vector3 ℝ) (h : 0 < dot v v) : 0 < length Real.sqrt v :=
  Real.sqrt_pos.mpr h

theorem length_mul_self (v : Vector3 ℝ) :
    length Real.sqrt v * length Real.sqrt v = dot v v :=
  Real.mul_self_sqrt (dot_self_nonneg v)

theorem dot_normalize_left (v w : Vector3 ℝ) :
    dot (normalize Real.sqrt v) w = dot v w / length Real.sqrt v := by
  simp only [dot, normalize]; ring

theorem dot_normalize_right (v w : Vector3 ℝ) :
    dot v (normalize Real.sqrt w) = dot v w / length Real.sqrt w := by
  simp only [dot, normalize]; ring

theorem dot_normalize_self (v : Vector3 ℝ) (h : 0 < dot v v) :
    dot (normalize Real.sqrt v) (normalize Real.sqrt v) = 1 := by
  rw [dot_normalize_left, dot_normalize_right, div_div, length_mul_self]
  exact div_self (ne_of_gt h)

theorem length_normalize (v : Vector3 ℝ) (h : 0 < dot v v) :
    length Real.sqrt (normalize Real.sqrt v) = 1 := by
  show Real.sqrt (dot (normalize Real.sqrt v) (normalize Real.sqrt v)) = 1
  rw [dot_normalize_self v h, Real.sqrt_one]

theorem cross_normalize (a b : Vector3 ℝ) :
    cross (normalize Real.sqrt a) (normalize Real.sqrt b)
      = scale (1 / (length Real.sqrt a * length Real.sqrt b)) (cross a b) := by
  simp only [cross, normalize, scale]
  congr 1 <;> ring

theorem dot_scale_self (k : ℝ) (v : Vector3 ℝ) :
    dot (scale k v) (scale k v) = k * k * dot v v := by
  simp only [dot, scale]; ring

/-- A vector whose cross product with a non-zero vector vanishes is a multiple
of it. -/
theorem cross_ne_zero (a b : Vector3 ℝ) (hb : b ≠ zero) (hpar : ¬ parallel a b) :
    cross a b ≠ zero := by
  intro hc
  apply hpar
  have h1 : a.y * b.z - a.z * b.y = 0 := congrArg Vector3.x hc
  have h2 : a.z * b.x - a.x * b.z = 0 := congrArg Vector3.y hc
  have h3 : a.x * b.y - a.y * b.x = 0 := congrArg Vector3.z hc
  by_cases hx : b.x = 0
  · by_cases hy : b.y = 0
    · have hz : b.z ≠ 0 := fun hz => hb (Vector3.ext hx hy hz)
      refine ⟨a.z / b.z, Or.inl (Vector3.ext ?_ ?_ ?_)⟩ <;>
        simp only [scale] <;> field_simp <;> linarith
    · refine ⟨a.y / b.y, Or.inl (Vector3.ext ?_ ?_ ?_)⟩ <;>
        simp only [scale] <;> field_simp <;> linarith
  · refine ⟨a.x / b.x, Or.inl (Vector3.ext ?_ ?_ ?_)⟩ <;>
      simp only [scale] <;> field_simp <;> linarith

theorem dot_comm {α : Type} [LinearOrderedField α] (a b : Vector3 α) :
    dot a b = dot b a := by
  simp only [dot]; ring

/-- The offset `p + k x + k y - p` paired with any vector. -/
theorem dot_offset {α : Type} [LinearOrderedField α] (k : α) (p x y w : Vector3 α) :
    dot (sub (add (add p (scale k x)) (scale k y)) p) w = k * dot x w + k * dot y w := by
  simp only [dot, sub, add, scale]; ring

/-- The axes built from a non-degenerate pair: X and Y are unit vectors and
orthogonal to each other. -/
theorem axes_unit_orthogonal (n d : Vector3 ℝ) (hn : n ≠ zero) (hd : d ≠ zero)
    (hpar : ¬ parallel d n) :
    dot (normalize Real.sqrt (cross (normalize Real.sqrt d) (normalize Real.sqrt n)))
        (normalize Real.sqrt (cross (normalize Real.sqrt d) (normalize Real.sqrt n))) = 1
      ∧ dot (normalize Real.sqrt d) (normalize Real.sqrt d) = 1
      ∧ dot (normalize Real.sqrt (cross (normalize Real.sqrt d) (normalize Real.sqrt n)))
          (normalize Real.sqrt d) = 0 := by
  have hN := dot_self_pos n hn
  have hD := dot_self_pos d hd
  have hC := dot_self_pos _ (cross_ne_zero d n hn hpar)
  have hK : 0 < 1 / (length Real.sqrt d * length Real.sqrt n) :=
    one_div_pos.mpr (mul_pos (length_pos d hD) (length_pos n hN))
  have hYZ : 0 < dot (cross (normalize Real.sqrt d) (normalize Real.sqrt n))
      (cross (normalize Real.sqrt d) (normalize Real.sqrt n)) := by
    rw [cross_normalize, dot_scale_self]
    exact mul_pos (mul_pos hK hK) hC
  refine ⟨dot_normalize_self _ hYZ, dot_normalize_self d hD, ?_⟩
  rw [dot_normalize_left, dot_cross_left, zero_div]

end Vector3

/-! ## Claims -/

section Claims

variable {α : Type} [LinearOrderedField α]

/-- C1 (press transition).  For every gesture state and every frame with at
most one hand per side, written `pre ++ hand :: post`: if `hand` is exactly one
of left/right (side `s`), has palm velocity z below -90, and `s` is not pressed
when the iteration starts, then after the iteration `s` is pressed with hold
counter 0.  The calls of the iteration are those made for `pre`, then those
made while `hand` is processed, then those made for `post`, and the calls made
while `hand` is processed contain exactly one `update`, carrying the control
point of `hand`. -/
theorem press_transition (sdk : Sdk α) (st : GestureState) (s : Side)
    (pre post : List (Hand α)) (hand : Hand α)
    (hside : hand.isOnly s = true)
    (hone : atMostOnePerSide (pre ++ hand :: post))
    (hvel : hand.palmVelocity.z < -90)
    (hp : st.pressed s = false) :
    (iteration sdk st (pre ++ hand :: post)).1.pressed s = true
      ∧ (iteration sdk st (pre ++ hand :: post)).1.holdCount s = 0
      ∧ (iteration sdk st (pre ++ hand :: post)).2 =
          (forHands sdk st pre).2
            ++ (handStep sdk (forHands sdk st pre).1 hand).2
            ++ (forHands sdk (handStep sdk (forHands sdk st pre).1 hand).1 post).2
      ∧ updatesOf (handStep sdk (forHands sdk st pre).1 hand).2 = [point sdk hand] := by
  have hoff := others_off_side s pre post hand (isOnly_onSide hand s hside) hone
  have hmid := forHands_keeps_unpressed sdk s pre hoff.1 st hp
  have hstep := handStep_press sdk (forHands sdk st pre).1 hand s hside hvel hmid
  have hend := forHands_keeps_pressed sdk s post hoff.2
    (handStep sdk (forHands sdk st pre).1 hand).1 hstep.1 (by rw [hstep.2.1]; decide)
  rw [iteration_of_ne_nil sdk st _ (by simp), forHands_append]
  refine ⟨hend.1, ?_, ?_, hstep.2.2⟩
  · exact hend.2.trans hstep.2.1
  · simp [forHands]

/-- C1, witness: from the initial state, a frame with a resting right hand
followed by a pushing left hand presses the left side. -/
theorem press_transition_witness :
    (iteration unitSdk initialState ([rightStill] ++ leftPush :: [])).1.pressed Side.left
        = true
      ∧ (iteration unitSdk initialState ([rightStill] ++ leftPush :: [])).1.holdCount
          Side.left = 0
      ∧ (iteration unitSdk initialState ([rightStill] ++ leftPush :: [])).2 =
          (forHands unitSdk initialState [rightStill]).2
            ++ (handStep unitSdk (forHands unitSdk initialState [rightStill]).1 leftPush).2
            ++ (forHands unitSdk
                (handStep unitSdk (forHands unitSdk initialState [rightStill]).1
                  leftPush).1 []).2
      ∧ updatesOf (handStep unitSdk (forHands unitSdk initialState [rightStill]).1
          leftPush).2 = [point unitSdk leftPush] :=
  press_transition unitSdk initialState Side.left [rightStill] [] leftPush rfl
    ⟨by decide, by decide⟩ (by decide) rfl

/-- C2 (release after exactly 40 held iterations).  Side `s` is pressed with
hold counter `c < 40`, in a gesture state reachable from the initial state, or
in any gesture state at all when the side has just been pressed (`c = 0`).
Then `40 - c` consecutive iterations run on frames that each contain exactly
one hand of side `s` (any velocity, at most one hand per side).  Side `s` is
still pressed, with counter `c + k`, after each of the first `k < 40 - c`
iterations, and is not pressed after iteration `40 - c`.  For `c = 0` these
are the first 39 iterations and the 40th. -/
theorem release_after_hold (sdk : Sdk α) (s : Side) (frames : List (List (Hand α)))
    (st : GestureState) (c : Nat)
    (hstate : Reachable sdk st ∨ c = 0)
    (hp : st.pressed s = true) (hc : st.holdCount s = (c : Int)) (hlt : c < 40)
    (hlen : frames.length = 40 - c) (hframes : ∀ f ∈ frames, heldFrame s f) :
    (∀ k, k < 40 - c →
        (runLoop sdk st (frames.take k)).1.pressed s = true
          ∧ (runLoop sdk st (frames.take k)).1.holdCount s = ((c + k : Nat) : Int))
      ∧ (runLoop sdk st frames).1.pressed s = false := by
  apply runLoop_hold_release sdk s frames st c hp hc hlt hlen hframes
  rintro ⟨-, h39, hdue⟩
  rcases hstate with hreach | h0
  · have hinv := reachable_inv sdk st hreach
    have := hinv.2.2.1 hdue.1
    have h40 : st.left_count = 40 := hdue.2
    omega
  · omega

/-- C2, witness: right pressed with counter 39, reached by a right push and 39
hold frames; one more frame with the right hand alone releases the right
side. -/
theorem release_after_hold_witness :
    (∀ k, k < 40 - 39 →
        (runLoop unitSdk ⟨false, true, 0, 39⟩ ([[rightStill]].take k)).1.pressed Side.right
            = true
          ∧ (runLoop unitSdk ⟨false, true, 0, 39⟩
              ([[rightStill]].take k)).1.holdCount Side.right = ((39 + k : Nat) : Int))
      ∧ (runLoop unitSdk ⟨false, true, 0, 39⟩ [[rightStill]]).1.pressed Side.right = false :=
  release_after_hold unitSdk Side.right [[rightStill]] ⟨false, true, 0, 39⟩ 39
    (Or.inl ⟨List.replicate 40 [rightPush], by set_option maxRecDepth 100000 in decide⟩)
    rfl rfl (by decide) rfl
    (fun f hf => by
      have hf1 : f = [rightStill] := by simpa using hf
      subst hf1
      exact ⟨⟨by decide, by decide⟩, [], rightStill, [], rfl, rfl⟩)

/-- C3 (empty frame).  For every gesture state, an iteration on a frame with
no hands makes exactly one emitter call, `stop`, and therefore no `update`;
the gesture state is unchanged. -/
theorem empty_frame_stops (sdk : Sdk α) (st : GestureState) :
    (iteration sdk st []).2 = [EmitterCall.stop]
      ∧ updatesOf (iteration sdk st []).2 = []
      ∧ (iteration sdk st []).1 = st :=
  ⟨rfl, rfl, rfl⟩

/-- C4 (a control point for every qualifying hand and only for those).  For
every gesture state and frame, the control points passed to `update` during the
iteration are, in hand order, exactly the control points of the hands that
qualify at the moment they are processed (palm velocity z below -90, or the
hand belongs to a side whose pressed flag is true), one per such hand; so the
number of `update` calls equals the number of such hands. -/
theorem updates_are_candidates (sdk : Sdk α) (st : GestureState) (hands : List (Hand α)) :
    updatesOf (iteration sdk st hands).2 = (candidateHands sdk st hands).map (point sdk)
      ∧ (updatesOf (iteration sdk st hands).2).length
          = (candidateHands sdk st hands).length := by
  have h : updatesOf (iteration sdk st hands).2
      = (candidateHands sdk st hands).map (point sdk) := by
    cases hands with
    | nil => rfl
    | cons h t => exact updatesOf_forHands sdk (h :: t) st
  exact ⟨h, by rw [h, List.length_map]⟩

/-- C5, amended (stop when no hand qualifies).  For every gesture state
reachable from the initial state and every frame in which no hand qualifies
(no hand has palm velocity z below -90 and no hand belongs to a pressed side):
the iteration leaves the gesture state unchanged, makes no `update`, and calls
`stop` exactly when the frame is empty or both sides have pressed = false.  In
a non-empty frame with a side pressed whose hand is absent, no emitter call is
made at all. -/
theorem stop_when_none_qualify (sdk : Sdk α) (st : GestureState) (hands : List (Hand α))
    (hreach : Reachable sdk st) (hnone : ∀ h ∈ hands, qualifies st h = false) :
    (iteration sdk st hands).1 = st
      ∧ updatesOf (iteration sdk st hands).2 = []
      ∧ (EmitterCall.stop ∈ (iteration sdk st hands).2 ↔
          hands = [] ∨ (st.left_pressed = false ∧ st.right_pressed = false))
      ∧ (hands ≠ [] → (st.left_pressed = true ∨ st.right_pressed = true) →
          (iteration sdk st hands).2 = []) := by
  cases hands with
  | nil => exact ⟨rfl, rfl, by simp [iteration], fun h => absurd rfl h⟩
  | cons h t =>
    have hf := forHands_none_qualify sdk st (reachable_inv sdk st hreach) (h :: t) hnone
    rw [iteration_of_ne_nil sdk st _ (List.cons_ne_nil h t)]
    refine ⟨hf.1, hf.2.1, ?_, ?_⟩
    · rw [hf.2.2]; simp
    · intro _ hpr
      have hno : EmitterCall.stop ∉ (forHands sdk st (h :: t)).2 := by
        rw [hf.2.2]
        rintro ⟨-, hl, hr⟩
        rcases hpr with hp | hp
        · rw [hl] at hp; exact absurd hp (by decide)
        · rw [hr] at hp; exact absurd hp (by decide)
      have hup := hf.2.1
      generalize (forHands sdk st (h :: t)).2 = calls at hno hup
      cases calls with
      | nil => rfl
      | cons c rest =>
        cases c with
        | stop => exact absurd (List.mem_cons_self _ _) hno
        | update p => simp [updatesOf] at hup

/-- C5, witness: in the initial state a frame with one resting left hand has
no qualifying hand, and `stop` is called. -/
theorem stop_when_none_qualify_witness :
    (iteration unitSdk initialState [leftStill]).1 = initialState
      ∧ updatesOf (iteration unitSdk initialState [leftStill]).2 = []
      ∧ (EmitterCall.stop ∈ (iteration unitSdk initialState [leftStill]).2 ↔
          [leftStill] = [] ∨
            (initialState.left_pressed = false ∧ initialState.right_pressed = false))
      ∧ ([leftStill] ≠ [] →
          (initialState.left_pressed = true ∨ initialState.right_pressed = true) →
          (iteration unitSdk initialState [leftStill]).2 = []) :=
  stop_when_none_qualify unitSdk initialState [leftStill] ⟨[], rfl⟩
    (fun h hh => by
      have h1 : h = leftStill := by simpa using hh
      subst h1
      decide)

/-- C5, counterexample.  After one frame with a pushing right hand the state
has right pressed (reachable).  On the next frame, holding only a resting left
hand, no hand qualifies, yet the iteration makes no emitter call: `stop` is not
invoked because the right flag is still true. -/
theorem stop_when_none_qualify_fails :
    ¬ ∀ (st : GestureState) (hands : List (Hand ℚ)), Reachable unitSdk st →
        (∀ h ∈ hands, qualifies st h = false) →
        EmitterCall.stop ∈ (iteration unitSdk st hands).2 := by
  intro h
  have h1 := h ⟨false, true, 0, 0⟩ [leftStill] ⟨[[rightPush]], by decide⟩
    (fun x hx => by
      have h2 : x = leftStill := by simpa using hx
      subst h2
      decide)
  have h3 : (iteration unitSdk ⟨false, true, 0, 0⟩ [leftStill]).2 = [] := by decide
  rw [h3] at h1
  exact absurd h1 (List.not_mem_nil _)

/-- C6, amended (both sides unpressed at the end).  For every gesture state
and frame, if both sides have pressed = false at the end of the iteration then
`stop` is invoked and is the last emitter call of the iteration.  Control
points of candidate hands may have been submitted before it in the same
iteration. -/
theorem stop_last_when_unpressed (sdk : Sdk α) (st : GestureState) (hands : List (Hand α))
    (hl : (iteration sdk st hands).1.left_pressed = false)
    (hr : (iteration sdk st hands).1.right_pressed = false) :
    ∃ calls, (iteration sdk st hands).2 = calls ++ [EmitterCall.stop] := by
  rcases List.eq_nil_or_concat hands with rfl | ⟨init, last, rfl⟩
  · exact ⟨[], rfl⟩
  · rw [List.concat_eq_append] at hl hr ⊢
    rw [iteration_of_ne_nil sdk st _ (by simp)] at hl hr ⊢
    rw [forHands_append] at hl hr ⊢
    simp only [forHands] at hl hr ⊢
    refine ⟨(forHands sdk st init).2
      ++ (candidateBody sdk (forHands sdk st init).1 last).2, ?_⟩
    simp only [handStep] at hl hr ⊢
    simp [stopCheck, hl, hr]

/-- C6, witness: in the initial state a frame with one resting left hand ends
with both sides unpressed and `stop` as the last call. -/
theorem stop_last_when_unpressed_witness :
    ∃ calls, (iteration unitSdk initialState [leftStill]).2 = calls ++ [EmitterCall.stop] :=
  stop_last_when_unpressed unitSdk initialState [leftStill] (by decide) (by decide)

/-- C6, counterexample.  The state with left pressed and counter 39 is reached
by 40 frames with the pushing left hand.  One more such frame ends with both
sides unpressed and `stop` is called, but an `update` was made first, for the
hand whose step triggers the release. -/
theorem no_update_when_unpressed_fails :
    ¬ ∀ (st : GestureState) (hands : List (Hand ℚ)), Reachable unitSdk st →
        (iteration unitSdk st hands).1.left_pressed = false →
        (iteration unitSdk st hands).1.right_pressed = false →
        EmitterCall.stop ∈ (iteration unitSdk st hands).2
          ∧ updatesOf (iteration unitSdk st hands).2 = [] := by
  intro h
  have h1 := (h ⟨true, false, 39, 0⟩ [leftPush]
    ⟨List.replicate 40 [leftPush], by set_option maxRecDepth 100000 in decide⟩
    (by decide) (by decide)).2
  have h2 : updatesOf (iteration unitSdk ⟨true, false, 39, 0⟩ [leftPush]).2
      = [point unitSdk leftPush] := by rfl
  rw [h2] at h1
  exact absurd h1 (List.cons_ne_nil _ _)

/-- C7 (press-hold-release scenario).  Start from the initial state and run 42
iterations: an empty frame, a frame with a single hand of side `s` pushing
(palm velocity z below -90), then 40 frames each holding one hand of side `s`
alone (`held`, 39 of them, then `last`).  The emitter calls per iteration are:
`stop`; one `update` for the push; one `update` in each of the next 39
iterations; and `update` followed by `stop` in the last.  So a control point is
submitted in each of the 41 hand iterations and `stop` is called in the first
and the last iteration only.  The pressed flag of `s`, read before the run and
after every iteration, is false, false, then true 40 times, then false: one
false-to-true and one true-to-false transition.  The flag of the other side
has no transition. -/
theorem press_hold_release (sdk : Sdk α) (s : Side) (push last : Hand α)
    (held : List (Hand α))
    (hpush : push.isOnly s = true) (hvel : push.palmVelocity.z < -90)
    (hlen : held.length = 39) (hheld : ∀ h ∈ held, h.isOnly s = true)
    (hlast : last.isOnly s = true) :
    (runLoop sdk initialState
        ([] :: [push] :: (held ++ [last]).map (fun h => [h]))).2
        = [EmitterCall.stop] :: [EmitterCall.update (point sdk push)]
            :: (held.map (fun h => [EmitterCall.update (point sdk h)])
                ++ [[EmitterCall.update (point sdk last), EmitterCall.stop]])
      ∧ (initialState :: statesAfter sdk initialState
            ([] :: [push] :: (held ++ [last]).map (fun h => [h]))).map
            (fun st => st.pressed s)
          = false :: false :: (List.replicate 40 true ++ [false])
      ∧ risingEdges ((initialState :: statesAfter sdk initialState
            ([] :: [push] :: (held ++ [last]).map (fun h => [h]))).map
            (fun st => st.pressed s)) = 1
      ∧ fallingEdges ((initialState :: statesAfter sdk initialState
            ([] :: [push] :: (held ++ [last]).map (fun h => [h]))).map
            (fun st => st.pressed s)) = 1
      ∧ ∀ t, t ≠ s →
          risingEdges ((initialState :: statesAfter sdk initialState
              ([] :: [push] :: (held ++ [last]).map (fun h => [h]))).map
              (fun st => st.pressed t)) = 0
            ∧ fallingEdges ((initialState :: statesAfter sdk initialState
              ([] :: [push] :: (held ++ [last]).map (fun h => [h]))).map
              (fun st => st.pressed t)) = 0 := by
  have h0 : iteration sdk initialState ([] : List (Hand α))
      = (initialState, [EmitterCall.stop]) := rfl
  have h1 := iteration_press_single sdk s push hpush hvel
  have h2 := runLoop_hold sdk s held 0 hheld (by omega)
  have h3 := iteration_release_single sdk s last hlast
  have hst : (((0 + held.length : Nat) : Int)) = 39 := by rw [hlen]; rfl
  rw [hst] at h2
  have hcast : heldState s ((0 : Nat) : Int) = heldState s 0 := rfl
  rw [hcast] at h2
  have hhist : ∀ t, (initialState :: statesAfter sdk initialState
      ([] :: [push] :: (held ++ [last]).map (fun h => [h]))).map (fun st => st.pressed t)
      = false :: false :: decide (t = s)
          :: (List.replicate 39 (decide (t = s)) ++ [false]) := by
    intro t
    simp only [List.map_append, List.map_cons, List.map_nil, statesAfter, h0, h1,
      statesAfter_append, h2.1, h2.2 t, h3, hlen]
    cases s <;> cases t <;>
      simp [initialState, heldState, releasedState, GestureState.pressed]
  have hs : (initialState :: statesAfter sdk initialState
      ([] :: [push] :: (held ++ [last]).map (fun h => [h]))).map (fun st => st.pressed s)
      = false :: false :: (List.replicate 40 true ++ [false]) := by
    rw [hhist s]; simp [List.replicate_succ]
  refine ⟨?_, hs, ?_, ?_, ?_⟩
  · simp only [List.map_append, List.map_cons, List.map_nil, runLoop, h0, h1,
      runLoop_append, h2.1, h3]
  · rw [hs]; decide
  · rw [hs]; decide
  · intro t ht
    have hd : decide (t = s) = false := by simpa using ht
    rw [hhist t, hd]
    exact ⟨by decide, by decide⟩

/-- C7, witness: the scenario with the pushing left hand in every hand frame. -/
theorem press_hold_release_witness :
    (runLoop unitSdk initialState
        ([] :: [leftPush] :: (List.replicate 39 leftPush ++ [leftPush]).map
          (fun h => [h]))).2
        = [EmitterCall.stop] :: [EmitterCall.update (point unitSdk leftPush)]
            :: ((List.replicate 39 leftPush).map
                  (fun h => [EmitterCall.update (point unitSdk h)])
                ++ [[EmitterCall.update (point unitSdk leftPush), EmitterCall.stop]])
      ∧ risingEdges ((initialState :: statesAfter unitSdk initialState
            ([] :: [leftPush] :: (List.replicate 39 leftPush ++ [leftPush]).map
              (fun h => [h]))).map (fun st => st.pressed Side.left)) = 1
      ∧ fallingEdges ((initialState :: statesAfter unitSdk initialState
            ([] :: [leftPush] :: (List.replicate 39 leftPush ++ [leftPush]).map
              (fun h => [h]))).map (fun st => st.pressed Side.left)) = 1 :=
  have h := press_hold_release unitSdk Side.left leftPush leftPush
    (List.replicate 39 leftPush) rfl (by decide) (List.length_replicate 39 leftPush)
    (fun x hx => by rw [List.eq_of_mem_replicate hx]; rfl) rfl
  ⟨h.1, h.2.2.1, h.2.2.2.1⟩

/-- C8, amended (palm axes).  Over the reals with the exact square root: if
the mapped palm normal and the mapped palm direction are non-zero and not
parallel, then the derived axes Z = normalize(mapped normal),
Y = normalize(mapped direction), X = normalize(Y × Z) are unit vectors and X is
orthogonal to both Y and Z.  Y and Z are orthogonal exactly when the mapped
normal and the mapped direction are. -/
theorem palm_axes (sdk : Sdk ℝ) (hand : Hand ℝ) (hsqrt : sdk.sqrt = Real.sqrt)
    (hn : sdk.fromTrackingDirectionToDeviceDirection (uh_palm_normal hand) ≠ Vector3.zero)
    (hd : sdk.fromTrackingDirectionToDeviceDirection (uh_palm_direction hand)
      ≠ Vector3.zero)
    (hpar : ¬ Vector3.parallel
      (sdk.fromTrackingDirectionToDeviceDirection (uh_palm_direction hand))
      (sdk.fromTrackingDirectionToDeviceDirection (uh_palm_normal hand))) :
    (Vector3.length sdk.sqrt (device_palm_x sdk hand) = 1
        ∧ Vector3.length sdk.sqrt (device_palm_y sdk hand) = 1
        ∧ Vector3.length sdk.sqrt (device_palm_z sdk hand) = 1)
      ∧ Vector3.dot (device_palm_x sdk hand) (device_palm_y sdk hand) = 0
      ∧ Vector3.dot (device_palm_x sdk hand) (device_palm_z sdk hand) = 0
      ∧ (Vector3.dot (device_palm_y sdk hand) (device_palm_z sdk hand) = 0 ↔
          Vector3.dot (sdk.fromTrackingDirectionToDeviceDirection (uh_palm_normal hand))
            (sdk.fromTrackingDirectionToDeviceDirection (uh_palm_direction hand)) = 0) := by
  simp only [device_palm_x, device_palm_y, device_palm_z, device_palm_normal,
    device_palm_direction, hsqrt]
  generalize sdk.fromTrackingDirectionToDeviceDirection (uh_palm_normal hand) = n
    at hn hpar ⊢
  generalize sdk.fromTrackingDirectionToDeviceDirection (uh_palm_direction hand) = d
    at hd hpar ⊢
  have hN := Vector3.dot_self_pos n hn
  have hD := Vector3.dot_self_pos d hd
  have hLn := Vector3.length_pos n hN
  have hLd := Vector3.length_pos d hD
  have hC := Vector3.dot_self_pos _ (Vector3.cross_ne_zero d n hn hpar)
  have hK : 0 < 1 / (Vector3.length Real.sqrt d * Vector3.length Real.sqrt n) :=
    one_div_pos.mpr (mul_pos hLd hLn)
  have hYZ : 0 < Vector3.dot
      (Vector3.cross (Vector3.normalize Real.sqrt d) (Vector3.normalize Real.sqrt n))
      (Vector3.cross (Vector3.normalize Real.sqrt d) (Vector3.normalize Real.sqrt n)) := by
    rw [Vector3.cross_normalize, Vector3.dot_scale_self]
    exact mul_pos (mul_pos hK hK) hC
  refine ⟨⟨Vector3.length_normalize _ hYZ, Vector3.length_normalize d hD,
    Vector3.length_normalize n hN⟩, ?_, ?_, ?_⟩
  · rw [Vector3.dot_normalize_left, Vector3.dot_cross_left, zero_div]
  · rw [Vector3.dot_normalize_left, Vector3.dot_cross_right, zero_div]
  · rw [Vector3.dot_normalize_left, Vector3.dot_normalize_right, div_div,
      div_eq_zero_iff]
    have hne : Vector3.length Real.sqrt d * Vector3.length Real.sqrt n ≠ 0 :=
      ne_of_gt (mul_pos hLd hLn)
    have hcomm : Vector3.dot d n = Vector3.dot n d := by
      simp only [Vector3.dot]; ring
    rw [hcomm]
    exact ⟨fun h => h.resolve_right (by rw [mul_comm]; exact hne), fun h => Or.inl h⟩

/-- C8, witness: the flat hand under the identity alignment has mapped normal
(0,0,1) and mapped direction (0,1,0). -/
theorem palm_axes_witness :
    (Vector3.length (idealSdk Real.sqrt).sqrt
          (device_palm_x (idealSdk Real.sqrt) (flatHand : Hand ℝ)) = 1
        ∧ Vector3.length (idealSdk Real.sqrt).sqrt
          (device_palm_y (idealSdk Real.sqrt) (flatHand : Hand ℝ)) = 1
        ∧ Vector3.length (idealSdk Real.sqrt).sqrt
          (device_palm_z (idealSdk Real.sqrt) (flatHand : Hand ℝ)) = 1)
      ∧ Vector3.dot (device_palm_x (idealSdk Real.sqrt) (flatHand : Hand ℝ))
          (device_palm_y (idealSdk Real.sqrt) (flatHand : Hand ℝ)) = 0
      ∧ Vector3.dot (device_palm_x (idealSdk Real.sqrt) (flatHand : Hand ℝ))
          (device_palm_z (idealSdk Real.sqrt) (flatHand : Hand ℝ)) = 0
      ∧ (Vector3.dot (device_palm_y (idealSdk Real.sqrt) (flatHand : Hand ℝ))
          (device_palm_z (idealSdk Real.sqrt) (flatHand : Hand ℝ)) = 0 ↔
          Vector3.dot
            ((idealSdk Real.sqrt).fromTrackingDirectionToDeviceDirection
              (uh_palm_normal (flatHand : Hand ℝ)))
            ((idealSdk Real.sqrt).fromTrackingDirectionToDeviceDirection
              (uh_palm_direction (flatHand : Hand ℝ))) = 0) :=
  palm_axes (idealSdk Real.sqrt) flatHand rfl
    (by simp [idealSdk, uh_palm_normal, flatHand, Vector3.neg, Vector3.zero,
      Vector3.ext_iff])
    (by simp [idealSdk, uh_palm_direction, flatHand, Vector3.zero, Vector3.ext_iff])
    (by
      simp only [idealSdk, uh_palm_normal, uh_palm_direction, flatHand, Vector3.neg,
        Vector3.parallel, Vector3.scale, Vector3.ext_iff]
      rintro ⟨k, h | h⟩
      · simpa using h.2.1
      · simpa using h.2.2)

/-- C8, counterexample.  Identity alignment, palm normal (0,0,-1) (negated to
(0,0,1)) and hand direction (0,3,4): both non-zero and not parallel, yet
Y = (0, 3/5, 4/5) and Z = (0,0,1) have dot product 4/5, so the three axes are
not mutually orthogonal. -/
theorem palm_axes_not_orthogonal :
    ¬ ∀ (sdk : Sdk ℝ) (hand : Hand ℝ), sdk.sqrt = Real.sqrt →
        sdk.fromTrackingDirectionToDeviceDirection (uh_palm_normal hand) ≠ Vector3.zero →
        sdk.fromTrackingDirectionToDeviceDirection (uh_palm_direction hand)
          ≠ Vector3.zero →
        ¬ Vector3.parallel
          (sdk.fromTrackingDirectionToDeviceDirection (uh_palm_direction hand))
          (sdk.fromTrackingDirectionToDeviceDirection (uh_palm_normal hand)) →
        (Vector3.length sdk.sqrt (device_palm_x sdk hand) = 1
          ∧ Vector3.length sdk.sqrt (device_palm_y sdk hand) = 1
          ∧ Vector3.length sdk.sqrt (device_palm_z sdk hand) = 1)
        ∧ Vector3.dot (device_palm_x sdk hand) (device_palm_y sdk hand) = 0
        ∧ Vector3.dot (device_palm_x sdk hand) (device_palm_z sdk hand) = 0
        ∧ Vector3.dot (device_palm_y sdk hand) (device_palm_z sdk hand) = 0 := by
  intro h
  have h1 := (h (idealSdk Real.sqrt) tiltedHand rfl
    (by simp [idealSdk, uh_palm_normal, tiltedHand, Vector3.neg, Vector3.zero,
      Vector3.ext_iff])
    (by simp [idealSdk, uh_palm_direction, tiltedHand, Vector3.zero, Vector3.ext_iff])
    (by
      simp only [idealSdk, uh_palm_normal, uh_palm_direction, tiltedHand, Vector3.neg,
        Vector3.parallel, Vector3.scale, Vector3.ext_iff]
      rintro ⟨k, h | h⟩
      · simpa using h.2.1
      · have h2 := h.1
        have h3 := h.2.1
        have h4 := h.2.2
        norm_num at h2 h3 h4
        rw [h3] at h4
        norm_num at h4)).2.2.2
  have h25 : Real.sqrt 25 = 5 := by
    rw [show (25 : ℝ) = 5 ^ 2 by norm_num]
    exact Real.sqrt_sq (by norm_num)
  simp only [device_palm_y, device_palm_z, device_palm_normal, device_palm_direction,
    idealSdk, uh_palm_normal, uh_palm_direction, tiltedHand, Vector3.neg,
    Vector3.normalize, Vector3.length, Vector3.dot] at h1
  norm_num [h25] at h1

/-- C9 (target computation scenario).  Over the reals with the exact square
root and `cm = 0.01`: for a hand whose device-space palm position is (0,0,0),
whose normalised mapped normal is (0,0,1) and whose normalised mapped direction
is (0,1,0), the X axis is (1,0,0) and the control point position is
(0.02, 0.02, 0). -/
theorem target_scenario (sdk : Sdk ℝ) (hand : Hand ℝ) (hsqrt : sdk.sqrt = Real.sqrt)
    (hcm : sdk.cm = 0.01)
    (hpos : device_palm_position sdk hand = ⟨0, 0, 0⟩)
    (hn : device_palm_normal sdk hand = ⟨0, 0, 1⟩)
    (hd : device_palm_direction sdk hand = ⟨0, 1, 0⟩) :
    device_palm_x sdk hand = ⟨1, 0, 0⟩
      ∧ (point sdk hand).position = ⟨0.02, 0.02, 0⟩ := by
  have hx : device_palm_x sdk hand = ⟨1, 0, 0⟩ := by
    simp only [device_palm_x, device_palm_y, device_palm_z, hn, hd, hsqrt,
      Vector3.cross, Vector3.normalize, Vector3.length, Vector3.dot]
    norm_num
  refine ⟨hx, ?_⟩
  simp only [point, position, device_palm_y, hx, hd, hpos, hcm, Vector3.add, Vector3.scale]
  norm_num

/-- C9, witness: the flat hand under the identity alignment. -/
theorem target_scenario_witness :
    device_palm_x (idealSdk Real.sqrt) (flatHand : Hand ℝ) = ⟨1, 0, 0⟩
      ∧ (point (idealSdk Real.sqrt) (flatHand : Hand ℝ)).position = ⟨0.02, 0.02, 0⟩ :=
  target_scenario (idealSdk Real.sqrt) flatHand rfl (by norm_num [idealSdk]) rfl
    (by
      simp only [device_palm_normal, idealSdk, uh_palm_normal, flatHand, Vector3.neg,
        Vector3.normalize, Vector3.length, Vector3.dot]
      norm_num)
    (by
      simp only [device_palm_direction, idealSdk, uh_palm_direction, flatHand,
        Vector3.normalize, Vector3.length, Vector3.dot]
      norm_num)

/-- C10 (intensity and frequency).  With the unit constant `hertz = 1`, every
control point passed to `update`, in any iteration from any gesture state and
for any hand, has intensity 1.5 and frequency 200. -/
theorem control_point_constants (sdk : Sdk α) (st : GestureState) (hands : List (Hand α))
    (hhz : sdk.hertz = 1) (p : ControlPoint α)
    (hp : p ∈ updatesOf (iteration sdk st hands).2) :
    p.intensity = 3 / 2 ∧ p.frequency = 200 := by
  have hrep : updatesOf (iteration sdk st hands).2
      = (candidateHands sdk st hands).map (point sdk) := by
    cases hands with
    | nil => rfl
    | cons h t => exact updatesOf_forHands sdk (h :: t) st
  rw [hrep, List.mem_map] at hp
  obtain ⟨h, -, rfl⟩ := hp
  exact ⟨rfl, by simp [point, frequency, hhz]⟩

/-- C10, witness: the control point of the push frame from the initial state. -/
theorem control_point_constants_witness :
    (point unitSdk leftPush).intensity = 3 / 2
      ∧ (point unitSdk leftPush).frequency = 200 :=
  control_point_constants unitSdk initialState [leftPush] rfl (point unitSdk leftPush)
    (by
      have h : updatesOf (iteration unitSdk initialState [leftPush]).2
          = [point unitSdk leftPush] := rfl
      rw [h]
      exact List.mem_singleton.mpr rfl)

/-- C11 (release evaluated per side at the end of the frame).  For every
gesture state reachable from the initial state and every frame with at most one
hand per side, each hand exactly one of left/right: the gesture state at the
end of the iteration of the code (release check after each hand, right tested
in the else-branch of left) equals the state of the gate as the specification
words it: the press/increment updates for all hands of the frame first, then,
for each side independently, pressed set to false if the side is pressed and
its counter equals 40. -/
theorem release_per_side_at_end (sdk : Sdk α) (st : GestureState) (hands : List (Hand α))
    (hreach : Reachable sdk st) (hone : atMostOnePerSide hands)
    (hsided : ∀ h ∈ hands, h.oneSided = true) :
    (iteration sdk st hands).1 = specGate st hands :=
  iteration_refines sdk st hands (reachable_inv sdk st hreach) hone hsided

/-- C11, witness: right pressed with counter 39 (reached by a right push and 39
hold frames); a frame with a pushing left hand and the right hand presses left
and releases right in both readings. -/
theorem release_per_side_at_end_witness :
    (iteration unitSdk ⟨false, true, 0, 39⟩ [leftPush, rightStill]).1
        = specGate ⟨false, true, 0, 39⟩ [leftPush, rightStill]
      ∧ (iteration unitSdk ⟨false, true, 0, 39⟩ [leftPush, rightStill]).1
        = ⟨true, false, 0, 40⟩ :=
  ⟨release_per_side_at_end unitSdk ⟨false, true, 0, 39⟩ [leftPush, rightStill]
    ⟨List.replicate 40 [rightPush], by set_option maxRecDepth 100000 in decide⟩
    ⟨by decide, by decide⟩
    (fun h hh => by
      rcases List.mem_cons.mp hh with h1 | h1
      · subst h1; rfl
      · have h2 : h = rightStill := by simpa using h1
        subst h2; rfl),
   by decide⟩

/-- C12, amended (no branch-chain asymmetry for one-sided hands).  For every
gesture state reachable from the initial state with left unpressed and right
pressed, and every frame with at most one hand per side, each hand exactly one
of left/right, that contains a pushing left hand (palm velocity z below -90)
and a right hand: the iteration updates both sides.  The end state is the one
with left pressed at counter 0 and the right counter incremented by one,
followed by the release check.  The reason is that for every hand that is
exactly one of left/right the `else if` chain gives the same result as
evaluating both sides independently. -/
theorem both_sides_updated (sdk : Sdk α) (st : GestureState) (hands : List (Hand α))
    (l r : Hand α) (hreach : Reachable sdk st) (hone : atMostOnePerSide hands)
    (hsided : ∀ h ∈ hands, h.oneSided = true) (hl : l ∈ hands) (hr : r ∈ hands)
    (hls : l.isOnly Side.left = true) (hvel : l.palmVelocity.z < -90)
    (hlp : st.left_pressed = false)
    (hrs : r.isOnly Side.right = true) (hrp : st.right_pressed = true) :
    (iteration sdk st hands).1 = releaseCheck ⟨true, true, 0, st.right_count + 1⟩
      ∧ ((iteration sdk st hands).1.left_pressed = true
        ∧ (iteration sdk st hands).1.left_count = 0
        ∧ (iteration sdk st hands).1.right_count = st.right_count + 1)
      ∧ ∀ (p : GestureState) (h : Hand α), h.oneSided = true →
          pressChain p h = independentChain p h := by
  have hmain := iteration_new_left_continuing_right sdk st hands l r
    (reachable_inv sdk st hreach) hone hsided hl hr hls hvel hlp hrs hrp
  refine ⟨hmain, ?_, fun p h hh => pressChain_eq_independentChain p h hh⟩
  rw [hmain, releaseCheck_left_zero]
  simp [independentRelease]

/-- C12, witness: right pressed with counter 0 after a right push; a frame
with a pushing left hand and the resting right hand. -/
theorem both_sides_updated_witness :
    (iteration unitSdk ⟨false, true, 0, 0⟩ [leftPush, rightStill]).1
        = releaseCheck ⟨true, true, 0, 0 + 1⟩
      ∧ (iteration unitSdk ⟨false, true, 0, 0⟩ [leftPush, rightStill]).1
        = ⟨true, true, 0, 1⟩ :=
  ⟨(both_sides_updated unitSdk ⟨false, true, 0, 0⟩ [leftPush, rightStill]
      leftPush rightStill ⟨[[rightPush]], by decide⟩ ⟨by decide, by decide⟩
      (fun h hh => by
        rcases List.mem_cons.mp hh with h1 | h1
        · subst h1; rfl
        · have h2 : h = rightStill := by simpa using h1
          subst h2; rfl)
      (by simp) (by simp) rfl (by decide) rfl rfl rfl).1,
   by decide⟩

/-- C12, refutation of the claimed asymmetry.  There is no reachable gesture
state and frame (at most one hand per side, each hand exactly one of
left/right) with a newly pressing left hand and a continuing right hand whose
end state differs from the independent evaluation of both sides. -/
theorem branch_chain_asymmetry_absent :
    ¬ ∃ (st : GestureState) (hands : List (Hand ℚ)) (l r : Hand ℚ),
        Reachable unitSdk st ∧ atMostOnePerSide hands
          ∧ (∀ h ∈ hands, h.oneSided = true) ∧ l ∈ hands ∧ r ∈ hands
          ∧ l.isOnly Side.left = true ∧ l.palmVelocity.z < -90
          ∧ st.left_pressed = false
          ∧ r.isOnly Side.right = true ∧ st.right_pressed = true
          ∧ (iteration unitSdk st hands).1
              ≠ releaseCheck ⟨true, true, 0, st.right_count + 1⟩ := by
  rintro ⟨st, hands, l, r, hreach, hone, hsided, hl, hr, hls, hvel, hlp, hrs, hrp, hne⟩
  exact hne (iteration_new_left_continuing_right unitSdk st hands l r
    (reachable_inv unitSdk st hreach) hone hsided hl hr hls hvel hlp hrs hrp)

/-- C13 (offset of 2 cm by 2 cm in the palm frame).  Over the reals with the
exact square root and `cm = 0.01`: if the mapped palm normal and the mapped palm
direction are non-zero and not parallel, the submitted position minus the
device-space palm position has component 0.02 along the derived X axis and 0.02
along the derived Y axis, and its length is `2 * sqrt 2` centimetres. -/
theorem offset_in_palm_frame (sdk : Sdk ℝ) (hand : Hand ℝ) (hsqrt : sdk.sqrt = Real.sqrt)
    (hcm : sdk.cm = 0.01)
    (hn : sdk.fromTrackingDirectionToDeviceDirection (uh_palm_normal hand) ≠ Vector3.zero)
    (hd : sdk.fromTrackingDirectionToDeviceDirection (uh_palm_direction hand)
      ≠ Vector3.zero)
    (hpar : ¬ Vector3.parallel
      (sdk.fromTrackingDirectionToDeviceDirection (uh_palm_direction hand))
      (sdk.fromTrackingDirectionToDeviceDirection (uh_palm_normal hand))) :
    Vector3.dot (Vector3.sub (point sdk hand).position (device_palm_position sdk hand))
        (device_palm_x sdk hand) = 0.02
      ∧ Vector3.dot (Vector3.sub (point sdk hand).position (device_palm_position sdk hand))
        (device_palm_y sdk hand) = 0.02
      ∧ Vector3.length sdk.sqrt
          (Vector3.sub (point sdk hand).position (device_palm_position sdk hand))
        = 2 * Real.sqrt 2 * 0.01 := by
  have hax := Vector3.axes_unit_orthogonal _ _ hn hd hpar
  simp only [point, position, device_palm_x, device_palm_y, device_palm_z,
    device_palm_normal, device_palm_direction, hsqrt, hcm]
  generalize sdk.fromTrackingDirectionToDeviceDirection (uh_palm_normal hand) = n at hax ⊢
  generalize sdk.fromTrackingDirectionToDeviceDirection (uh_palm_direction hand) = d
    at hax ⊢
  generalize Vector3.normalize Real.sqrt d = y at hax ⊢
  generalize Vector3.normalize Real.sqrt (Vector3.cross y (Vector3.normalize Real.sqrt n))
    = x at hax ⊢
  obtain ⟨hxx, hyy, hxy⟩ := hax
  have hyx : Vector3.dot y x = 0 := by rw [Vector3.dot_comm]; exact hxy
  refine ⟨?_, ?_, ?_⟩
  · rw [Vector3.dot_offset, hxx, hyx]; norm_num
  · rw [Vector3.dot_offset, hxy, hyy]; norm_num
  · have hsq : Vector3.dot
        (Vector3.sub (Vector3.add (Vector3.add (device_palm_position sdk hand)
          (Vector3.scale (2 * 0.01) x)) (Vector3.scale (2 * 0.01) y))
          (device_palm_position sdk hand))
        (Vector3.sub (Vector3.add (Vector3.add (device_palm_position sdk hand)
          (Vector3.scale (2 * 0.01) x)) (Vector3.scale (2 * 0.01) y))
          (device_palm_position sdk hand))
        = 2 * (0.02 : ℝ) ^ 2 := by
      have hexp : ∀ (k : ℝ) (p a b : Vector3 ℝ),
          Vector3.dot (Vector3.sub (Vector3.add (Vector3.add p (Vector3.scale k a))
              (Vector3.scale k b)) p)
            (Vector3.sub (Vector3.add (Vector3.add p (Vector3.scale k a))
              (Vector3.scale k b)) p)
          = k * k * (Vector3.dot a a + 2 * Vector3.dot a b + Vector3.dot b b) := by
        intro k p a b
        simp only [Vector3.dot, Vector3.sub, Vector3.add, Vector3.scale]; ring
      rw [hexp, hxx, hxy, hyy]; norm_num
    show Real.sqrt _ = _
    rw [hsq, Real.sqrt_mul (by norm_num), Real.sqrt_sq (by norm_num)]
    ring

/-- C13, witness: the flat hand under the identity alignment. -/
theorem offset_in_palm_frame_witness :
    Vector3.dot
        (Vector3.sub (point (idealSdk Real.sqrt) (flatHand : Hand ℝ)).position
          (device_palm_position (idealSdk Real.sqrt) (flatHand : Hand ℝ)))
        (device_palm_x (idealSdk Real.sqrt) (flatHand : Hand ℝ)) = 0.02
      ∧ Vector3.dot
        (Vector3.sub (point (idealSdk Real.sqrt) (flatHand : Hand ℝ)).position
          (device_palm_position (idealSdk Real.sqrt) (flatHand : Hand ℝ)))
        (device_palm_y (idealSdk Real.sqrt) (flatHand : Hand ℝ)) = 0.02
      ∧ Vector3.length (idealSdk Real.sqrt).sqrt
          (Vector3.sub (point (idealSdk Real.sqrt) (flatHand : Hand ℝ)).position
            (device_palm_position (idealSdk Real.sqrt) (flatHand : Hand ℝ)))
        = 2 * Real.sqrt 2 * 0.01 :=
  offset_in_palm_frame (idealSdk Real.sqrt) flatHand rfl (by norm_num [idealSdk])
    (by simp [idealSdk, uh_palm_normal, flatHand, Vector3.neg, Vector3.zero,
      Vector3.ext_iff])
    (by simp [idealSdk, uh_palm_direction, flatHand, Vector3.zero, Vector3.ext_iff])
    (by
      simp only [idealSdk, uh_palm_normal, uh_palm_direction, flatHand, Vector3.neg,
        Vector3.parallel, Vector3.scale, Vector3.ext_iff]
      rintro ⟨k, h | h⟩
      · simpa using h.2.1
      · simpa using h.2.2)

/-- C14 (hold-counter invariant).  In every gesture state reachable from the
initial state by any sequence of frames, and after every processed hand of any
further frame (the first `k` hands of `hands`, for every `k`), each side's
hold counter lies in 0..40 and a pressed side has its counter below 40.  The
same holds at the end of the iteration.  So a counter never steps past 40. -/
theorem hold_counter_invariant (sdk : Sdk α) (st : GestureState) (hands : List (Hand α))
    (k : Nat) (s : Side) (hreach : Reachable sdk st) :
    ((0 ≤ (forHands sdk st (hands.take k)).1.holdCount s
          ∧ (forHands sdk st (hands.take k)).1.holdCount s ≤ 40)
        ∧ ((forHands sdk st (hands.take k)).1.pressed s = true →
            (forHands sdk st (hands.take k)).1.holdCount s < 40))
      ∧ ((0 ≤ (iteration sdk st hands).1.holdCount s
          ∧ (iteration sdk st hands).1.holdCount s ≤ 40)
        ∧ ((iteration sdk st hands).1.pressed s = true →
            (iteration sdk st hands).1.holdCount s < 40))
      ∧ Reachable sdk (iteration sdk st hands).1 := by
  have hinv := reachable_inv sdk st hreach
  refine ⟨counterInv_side _ (forHands_inv sdk (hands.take k) st hinv) s,
    counterInv_side _ (iteration_inv sdk st hands hinv) s, ?_⟩
  obtain ⟨frames, rfl⟩ := hreach
  exact ⟨frames ++ [hands], by rw [runLoop_append]; rfl⟩

/-- C14, witness: the initial state and a frame with the pushing left hand. -/
theorem hold_counter_invariant_witness :
    ((0 ≤ (forHands unitSdk initialState ([leftPush].take 1)).1.holdCount Side.left
          ∧ (forHands unitSdk initialState ([leftPush].take 1)).1.holdCount Side.left ≤ 40)
        ∧ ((forHands unitSdk initialState ([leftPush].take 1)).1.pressed Side.left = true →
            (forHands unitSdk initialState ([leftPush].take 1)).1.holdCount Side.left < 40))
      ∧ ((0 ≤ (iteration unitSdk initialState [leftPush]).1.holdCount Side.left
          ∧ (iteration unitSdk initialState [leftPush]).1.holdCount Side.left ≤ 40)
        ∧ ((iteration unitSdk initialState [leftPush]).1.pressed Side.left = true →
            (iteration unitSdk initialState [leftPush]).1.holdCount Side.left < 40))
      ∧ Reachable unitSdk (iteration unitSdk initialState [leftPush]).1 :=
  hold_counter_invariant unitSdk initialState [leftPush] 1 Side.left ⟨[], rfl⟩

/-- C15 (a side changes only when a hand of that side is in the frame).  For
every gesture state reachable from the initial state and every frame in which
no hand reports side `s` (the empty frame included), the pressed flag and the
hold counter of `s` are the same after the iteration as before it.  A pressed
side whose hand is out of view therefore stays pressed with its counter
frozen. -/
theorem absent_side_unchanged (sdk : Sdk α) (st : GestureState) (hands : List (Hand α))
    (s : Side) (hreach : Reachable sdk st) (habs : ∀ h ∈ hands, h.onSide s = false) :
    (iteration sdk st hands).1.pressed s = st.pressed s
      ∧ (iteration sdk st hands).1.holdCount s = st.holdCount s := by
  cases hands with
  | nil => exact ⟨rfl, rfl⟩
  | cons h t =>
    exact forHands_absent_side sdk s (h :: t) habs st (reachable_inv sdk st hreach)

/-- C15, witness: right pressed after a right push; a frame with only a
pushing left hand leaves the right side pressed with counter 0. -/
theorem absent_side_unchanged_witness :
    (iteration unitSdk ⟨false, true, 0, 0⟩ [leftPush]).1.pressed Side.right = true
      ∧ (iteration unitSdk ⟨false, true, 0, 0⟩ [leftPush]).1.holdCount Side.right = 0 :=
  absent_side_unchanged unitSdk ⟨false, true, 0, 0⟩ [leftPush] Side.right
    ⟨[[rightPush]], by decide⟩
    (fun h hh => by
      have h1 : h = leftPush := by simpa using hh
      subst h1; rfl)

end Claims

end HandTracking
